import Mathlib

/-!
Shallow embedding of the benchmark results persistence layer of the
latency-lab repository: the LLR sample codec (`scripts/raw_format.py`) and
the CSV index store (`scripts/run_bench.py`).

Modelling conventions:
* Python byte strings are `List Nat` with entries below 256; Python text
  strings that are only stored and compared (header strings) are modelled as
  their UTF-8 byte lists, since `encode("utf-8")` / `decode("utf-8")` is a
  bijection between valid text and its byte representation.
* The outer LZMA wrapping of the container is an opaque lossless transform
  (spec section 4.1 item 8); the model works on the byte stream before
  compression and after decompression, which the transform maps to each
  other exactly.
* Python exceptions become `Except String` or an explicit error field;
  interpolated values in the Python messages are elided.
* Python `//` on possibly negative ints is floor division, `Int.fdiv`.
* `struct.pack` range failures are modelled by explicit range checks.
-/

/-- Model of `MAGIC = b"LLR1"` (bytes of the magic constant). -/
def MAGIC : List Nat := [76, 76, 82, 49]

/-- Model of `VERSION = 1`. -/
def VERSION : Nat := 1

/-- Model of `UNIT_NAMES = ("ns", "us", "ms", "s")`. -/
def UNIT_NAMES : List String := ["ns", "us", "ms", "s"]

/-- Model of the `UNIT_ENUM` dict built by enumerating `UNIT_NAMES`;
`none` models a `KeyError` / failed membership test. -/
def UNIT_ENUM (u : String) : Option Nat :=
  if u = "ns" then some 0
  else if u = "us" then some 1
  else if u = "ms" then some 2
  else if u = "s" then some 3
  else none

/-- Model of the `UNIT_SCALE_NS` dict. Every caller in the source checks
membership in `UNIT_ENUM` before the lookup, so the default value 0 for an
unknown key (a `KeyError` in Python) is never reached. -/
def UNIT_SCALE_NS (u : String) : Nat :=
  if u = "ns" then 1
  else if u = "us" then 1000
  else if u = "ms" then 1000000
  else if u = "s" then 1000000000
  else 0

/-- Model of the `RawHeader` dataclass. String fields are UTF-8 byte lists. -/
structure RawHeader where
  case_name : List Nat
  tags : List (List Nat)
  args : List (List Nat)
  iters : Nat
  warmup : Nat
  pin_cpu : Int
  unit : String
  sample_count : Nat
deriving DecidableEq, Repr

/-- Model of `choose_unit_from_min`. -/
def choose_unit_from_min (min_ns : Int) : String :=
  if 100000000000 ≤ min_ns then "s"
  else if 100000000 ≤ min_ns then "ms"
  else if 100000 ≤ min_ns then "us"
  else "ns"

/-- Model of `_zigzag_encode`. On Python unbounded two-complement integers,
`(value <<< 1) ^^^ (value >>> 63)` equals `2 * value` when `value ≥ 0` (the
arithmetic shift is 0, and XOR with 0 is the identity) and `-2 * value - 1`
when `value < 0` (the shift is -1, and XOR with -1 is `fun x => -x - 1`);
the range guard keeps `value >>> 63` in the set with 0 and -1. -/
def _zigzag_encode (value : Int) : Except String Nat :=
  if value < -(2 ^ 63) ∨ value > 2 ^ 63 - 1 then .error "delta out of int64 range"
  else if 0 ≤ value then .ok (2 * value).toNat
  else .ok (-2 * value - 1).toNat

/-- Model of `_zigzag_decode`. `(value >>> 1) ^^^ (-(value &&& 1))` on a
nonnegative Python int is `value / 2` when `value` is even (XOR with 0) and
`-(value / 2) - 1` when `value` is odd (XOR with -1). -/
def _zigzag_decode (value : Nat) : Int :=
  if value % 2 = 0 then ((value / 2 : Nat) : Int)
  else -((value / 2 : Nat) : Int) - 1

/-- Structural worker for `_write_varint`. The loop of the source shrinks
`value` by `>>> 7` each round, so it runs at most `value` times; the fuel
makes the recursion structural without changing any reachable branch: when
the fuel is 0 the value is 0 and the base case equals the loop exit. -/
def _write_varint_aux : Nat → Nat → List Nat
  | 0, value => [value &&& 0x7F]
  | fuel + 1, value =>
    let chunk := value &&& 0x7F
    let rest := value >>> 7
    if rest = 0 then [chunk] else (chunk ||| 0x80) :: _write_varint_aux fuel rest

/-- Model of `_write_varint`. The argument is the already nonnegative zigzag
value (the Python guard `value < 0` cannot fire on a `Nat`); the returned
bytes are in the order appended to the buffer. -/
def _write_varint (value : Nat) : List Nat :=
  _write_varint_aux value value

/-- Worker for `_read_varint`. The loop of the source runs at most 11 times
before the `shift > 70` guard raises, so the fuel 12 passed by
`_read_varint` never reaches the out-of-fuel branch; the branch reuses the
error text of the guard. -/
def _read_varint_aux (data : List Nat) : Nat → Nat → Nat → Nat → Except String (Nat × Nat)
  | 0, _, _, _ => .error "varint too large"
  | fuel + 1, offset, value, shift =>
    if h : offset < data.length then
      let byte := data[offset]
      let value2 := value ||| ((byte &&& 0x7F) <<< shift)
      if byte &&& 0x80 = 0 then .ok (value2, offset + 1)
      else if shift + 7 > 70 then .error "varint too large"
      else _read_varint_aux data fuel (offset + 1) value2 (shift + 7)
    else .error "truncated varint"

/-- Model of `_read_varint data offset`, returning the decoded value and the
offset just past its bytes. -/
def _read_varint (data : List Nat) (offset : Nat) : Except String (Nat × Nat) :=
  _read_varint_aux data 12 offset 0 0

/-- Little-endian byte encoding of `v` on `w` bytes, the byte layout of
`struct.pack` for the fixed-width unsigned fields. -/
def toLE : Nat → Nat → List Nat
  | 0, _ => []
  | w + 1, v => (v % 256) :: toLE w (v / 256)

/-- Little-endian byte decoding, the layout of `struct.unpack` for the
fixed-width unsigned fields. -/
def fromLE : List Nat → Nat
  | [] => 0
  | b :: rest => b + 256 * fromLE rest

/-- Signed 32-bit decoding of 4 little-endian bytes, the layout of
`struct.unpack "<i"`. -/
def fromLEi32 (bytes : List Nat) : Int :=
  let u := fromLE bytes
  if u ≥ 2 ^ 31 then (u : Int) - 2 ^ 32 else (u : Int)

/-- Model of the per-string part of `_write_header` for the tag and arg
loops: each string is written as a 4-byte length then its bytes, onto the
already written prefix `w`; a length outside the `struct.pack "<I"` range
aborts with the bytes written so far. -/
def writeStrs : List (List Nat) → List Nat → List Nat × Option String
  | [], w => (w, none)
  | s :: rest, w =>
    if s.length < 2 ^ 32 then writeStrs rest (w ++ toLE 4 s.length ++ s)
    else (w, some "struct.error")

/-- Model of `_write_header`. The handle is modelled as the list of bytes
written so far; a failing `struct.pack` (or a unit missing from
`UNIT_ENUM`) stops the function with the bytes already written, matching
the sequential `handle.write` calls of the source. -/
def _write_header (h : RawHeader) : List Nat × Option String :=
  let w0 := MAGIC
  match UNIT_ENUM h.unit with
  | none => (w0, some "KeyError: unit")
  | some e =>
    let w1 := w0 ++ [VERSION, e, 0, 0]
    if h.sample_count < 2 ^ 64 ∧ h.iters < 2 ^ 64 ∧ h.warmup < 2 ^ 64 ∧
        -(2 ^ 31) ≤ h.pin_cpu ∧ h.pin_cpu < 2 ^ 31 ∧ h.tags.length < 2 ^ 32 then
      let w2 := w1 ++ toLE 8 h.sample_count ++ toLE 8 h.iters ++ toLE 8 h.warmup ++
        toLE 4 (h.pin_cpu.emod (2 ^ 32)).toNat ++ toLE 4 h.tags.length
      if h.case_name.length < 2 ^ 32 then
        let w3 := w2 ++ toLE 4 h.case_name.length ++ h.case_name
        match writeStrs h.tags w3 with
        | (w4, some e2) => (w4, some e2)
        | (w4, none) =>
          if h.args.length < 2 ^ 32 then
            writeStrs h.args (w4 ++ toLE 4 h.args.length)
          else (w4, some "struct.error")
      else (w2, some "struct.error")
    else (w1, some "struct.error")

/-- Model of the tag and arg loops of `_read_header`: read `n` strings,
each as a 4-byte length then that many bytes, with the two error texts of
the corresponding loop. -/
def readStrs (lenErr bodyErr : String) : Nat → List Nat → Except String (List (List Nat) × List Nat)
  | 0, data => .ok ([], data)
  | n + 1, data =>
    let lenB := data.take 4
    if lenB.length ≠ 4 then .error lenErr
    else
      let len := fromLE lenB
      let body := (data.drop 4).take len
      if body.length ≠ len then .error bodyErr
      else
        match readStrs lenErr bodyErr n ((data.drop 4).drop len) with
        | .error e => .error e
        | .ok (rest, data2) => .ok (body :: rest, data2)

/-- Model of `_read_header` on the decompressed byte stream; returns the
header and the remaining (payload) bytes. -/
def _read_header (data : List Nat) : Except String (RawHeader × List Nat) :=
  let magic := data.take 4
  let d1 := data.drop 4
  if magic ≠ MAGIC then .error "invalid raw file magic"
  else
    let hb := d1.take 4
    let d2 := d1.drop 4
    if hb.length ≠ 4 then .error "truncated raw header"
    else
      let version := hb.getD 0 0
      let unitEnum := hb.getD 1 0
      if version ≠ VERSION then .error "unsupported raw version"
      else if unitEnum ≥ UNIT_NAMES.length then .error "invalid unit enum"
      else
        let unit := UNIT_NAMES.getD unitEnum ""
        let fixed := d2.take 32
        let d3 := d2.drop 32
        if fixed.length ≠ 32 then .error "truncated raw header"
        else
          let sample_count := fromLE (fixed.take 8)
          let iters := fromLE ((fixed.drop 8).take 8)
          let warmup := fromLE ((fixed.drop 16).take 8)
          let pin_cpu := fromLEi32 ((fixed.drop 24).take 4)
          let tag_count := fromLE ((fixed.drop 28).take 4)
          let caseLenB := d3.take 4
          let d4 := d3.drop 4
          if caseLenB.length ≠ 4 then .error "truncated raw header"
          else
            let case_len := fromLE caseLenB
            let case_bytes := d4.take case_len
            let d5 := d4.drop case_len
            if case_bytes.length ≠ case_len then .error "truncated case name"
            else
              match readStrs "truncated tag length" "truncated tag" tag_count d5 with
              | .error e => .error e
              | .ok (tags, d6) =>
                let argCountB := d6.take 4
                let d7 := d6.drop 4
                if argCountB.length ≠ 4 then .error "truncated arg count"
                else
                  let arg_count := fromLE argCountB
                  match readStrs "truncated arg length" "truncated arg" arg_count d7 with
                  | .error e => .error e
                  | .ok (args, d8) =>
                    .ok (⟨case_bytes, tags, args, iters, warmup, pin_cpu, unit, sample_count⟩, d8)

/-- Model of `min(samples) if samples else 0` in `encode_samples_to_llr`
(Python `min` of a nonempty list is a fold of binary `min`). -/
def pyMin : List Int → Int
  | [] => 0
  | v :: rest => rest.foldl min v

/-- Resolution of the `unit` argument of `encode_samples_to_llr`: the
`"auto"` branch picks the unit from the minimum raw sample. -/
def resolveUnit (samples : List Int) (unit : String) : String :=
  if unit = "auto" then choose_unit_from_min (pyMin samples) else unit

/-- Worker of `_encode_samples`. The state is the previous scaled value,
the bytes already written to the handle and the pending 64 KiB buffer; a
zigzag range error aborts with the bytes written so far (the buffer is
discarded, as the exception skips the final flush). -/
def _encode_samples_go (scale : Nat) : List Int → Int → List Nat → List Nat → List Nat × Option String
  | [], _, written, buffer => (written ++ buffer, none)
  | v :: rest, prev, written, buffer =>
    let scaled := Int.fdiv (v + ((scale / 2 : Nat) : Int)) (scale : Int)
    let delta := scaled - prev
    match _zigzag_encode delta with
    | .error e => (written, some e)
    | .ok enc =>
      let buffer2 := buffer ++ _write_varint enc
      if 64 * 1024 ≤ buffer2.length then _encode_samples_go scale rest scaled (written ++ buffer2) []
      else _encode_samples_go scale rest scaled written buffer2

/-- Model of `_encode_samples`: the bytes written to the handle, with an
optional range error. -/
def _encode_samples (samples : List Int) (unit : String) : List Nat × Option String :=
  _encode_samples_go (UNIT_SCALE_NS unit) samples 0 [] []

/-- Outcome of `encode_samples_to_llr`. `ok` carries the mutated header and
the bytes of the container (before the opaque LZMA transform);
`errBeforeOpen` is a failure raised before the output file is opened (no
file is created); `errAfterOpen` is a failure raised while writing, with
the mutated header and the bytes already written to the file. -/
inductive EncodeOutcome where
  | ok (header : RawHeader) (file : List Nat)
  | errBeforeOpen (msg : String)
  | errAfterOpen (msg : String) (header : RawHeader) (file : List Nat)
deriving DecidableEq, Repr

/-- Model of `encode_samples_to_llr`. The Python function mutates the
caller header in place (`header.unit = unit`, `header.sample_count =
len(samples)`) before opening the output file; the outcome carries the
header object as the caller observes it after the call. -/
def encode_samples_to_llr (samples : List Int) (header : RawHeader) (unit : String) : EncodeOutcome :=
  let u := resolveUnit samples unit
  if (UNIT_ENUM u).isSome then
    let header2 : RawHeader := { header with unit := u, sample_count := samples.length }
    match _write_header header2 with
    | (w, some e) => .errAfterOpen e header2 w
    | (w, none) =>
      match _encode_samples samples u with
      | (body, some e) => .errAfterOpen e header2 (w ++ body)
      | (body, none) => .ok header2 (w ++ body)
  else .errBeforeOpen "unknown unit"

/-- Model of the decode loop of `read_llr`: read while the offset is inside
the payload and fewer than `sample_count` samples have been produced; the
recursion counter is the number of samples still allowed. -/
def decodeLoop (payload : List Nat) (from_scale to_scale : Nat) : Nat → Nat → Int → Except String (List Int)
  | 0, _, _ => .ok []
  | r + 1, offset, prev =>
    if offset < payload.length then
      match _read_varint payload offset with
      | .error e => .error e
      | .ok (raw, offset2) =>
        let delta := _zigzag_decode raw
        let prev2 := prev + delta
        let ns_value := prev2 * (from_scale : Int)
        let v := Int.fdiv (ns_value + ((to_scale / 2 : Nat) : Int)) (to_scale : Int)
        match decodeLoop payload from_scale to_scale r offset2 prev2 with
        | .error e => .error e
        | .ok rest => .ok (v :: rest)
    else .ok []

/-- Model of `read_llr` on the decompressed container bytes. -/
def read_llr (data : List Nat) (unit : String) : Except String (RawHeader × List Int) :=
  match _read_header data with
  | .error e => .error e
  | .ok (header, payload) =>
    if (UNIT_ENUM unit).isSome then
      match decodeLoop payload (UNIT_SCALE_NS header.unit) (UNIT_SCALE_NS unit) header.sample_count 0 0 with
      | .error e => .error e
      | .ok samples => .ok (header, samples)
    else .error "unknown unit"

/-!
Result index store, from `scripts/run_bench.py`.

A CSV file is modelled at the record level as `Option (List (List String))`:
`none` is a missing file, `some []` an existing empty file, and otherwise
the list of CSV records (the header record first).  The `csv` module maps
records to text lines bijectively, so nothing is lost at this level.  A
parsed row (a Python dict) is an association list from column name to
value; `csv.DictReader` is modelled by zipping the header with a record,
which matches the dict for the well-formed files the theorems quantify
over (header without duplicate columns, each record as long as the header;
ragged records would involve `None` padding that the model leaves out of
scope).
-/

/-- Parsed index row: a dict from column name to string value. -/
abbrev IndexRow : Type := List (String × String)

/-- Model of `row.get(field, "")` (also the `restval=""` of `DictWriter`
for a column the row lacks). -/
def rowGet (row : IndexRow) (field : String) : String :=
  (List.lookup field row).getD ""

/-- Model of `INDEX_FIELDS`, the canonical default schema. -/
def INDEX_FIELDS : List String :=
  ["lab", "case", "tags", "iters", "warmup", "pin_cpu", "noise_mode",
   "noise_cpu", "unit", "min", "p50", "p95", "p99", "p999", "max", "mean",
   "run_dir", "summary_path", "meta_path", "stdout_path", "raw_csv_path",
   "raw_llr_path", "raw_unit", "bench_path", "bench_args", "started_at"]

/-- Model of `INDEX_KEY_FIELDS`, the run identity key columns. -/
def INDEX_KEY_FIELDS : List String :=
  ["lab", "case", "tags", "iters", "warmup", "pin_cpu", "noise_mode",
   "noise_cpu", "bench_args"]

/-- Model of `_index_key`: the identity key of a row, read with
`str(row.get(field, ""))` (the values are already strings here). -/
def _index_key (row : IndexRow) : List String :=
  INDEX_KEY_FIELDS.map (rowGet row)

/-- Model of `_merge_index_fields`: append each canonical field missing
from `fields`, scanning the growing list exactly as the Python loop does. -/
def _merge_index_fields (fields : List String) : List String :=
  INDEX_FIELDS.foldl (fun merged field => if field ∈ merged then merged else merged ++ [field]) fields

/-- Model of `csv.DictReader` row parsing against a fieldname list:
blank records are skipped, the others are zipped with the header. -/
def parseRecords (header : List String) (recs : List (List String)) : List IndexRow :=
  (recs.filter (fun r => !r.isEmpty)).map (fun r => header.zip r)

/-- Model of `csv.DictWriter(..., extrasaction="ignore").writerow`: project
a row onto the schema, with the empty string for a missing column and the
extra columns of the row dropped. -/
def projectRow (fields : List String) (row : IndexRow) : List String :=
  fields.map (rowGet row)

/-- The filesystem state of the index file. -/
abbrev IndexFile : Type := Option (List (List String))

/-- Model of `_ensure_index_fields`: returns the schema to use and the
possibly rewritten file (the source rewrites in place; the model returns
the new state). -/
def _ensure_index_fields (file : IndexFile) : List String × IndexFile :=
  match file with
  | none => (INDEX_FIELDS, none)
  | some records =>
    let existing := records.head?.getD []
    if existing.isEmpty then (INDEX_FIELDS, some records)
    else
      let missing := INDEX_FIELDS.filter (fun f => !(f ∈ existing : Bool))
      if missing.isEmpty then (existing, some records)
      else
        let rows := parseRecords existing records.tail
        let merged := _merge_index_fields existing
        (merged, some (merged :: rows.map (projectRow merged)))

/-- Model of `append_index_csv`: ensure the schema, then append the
projected row, writing a header line first when the file is missing or
empty after the schema pass. -/
def append_index_csv (file : IndexFile) (row : IndexRow) : IndexFile :=
  let ensured := _ensure_index_fields file
  let fields := ensured.1
  let file2 := ensured.2
  let needsHeader : Bool := file2 = none ∨ file2 = some []
  let existingRecords := match file2 with | none => [] | some recs => recs
  some (existingRecords ++ (if needsHeader then [fields] else []) ++ [projectRow fields row])

/-- Model of `_read_index_rows`. -/
def _read_index_rows (file : IndexFile) : List String × List IndexRow :=
  match file with
  | none => (INDEX_FIELDS, [])
  | some [] => (INDEX_FIELDS, [])
  | some (hdr :: rest) => (hdr, parseRecords hdr rest)

/-- Model of `update_index_csv`: `skip` leaves the file alone, `append`
delegates, anything else (the `replace` path) reads the file, merges the
schema, drops every row with the key of the incoming row, appends it and
rewrites the whole file. -/
def update_index_csv (file : IndexFile) (row : IndexRow) (mode : String) : IndexFile :=
  if mode = "skip" then file
  else if mode = "append" then append_index_csv file row
  else
    let read := _read_index_rows file
    let fields := _merge_index_fields read.1
    let target := _index_key row
    let filtered := read.2.filter (fun ex => !(_index_key ex = target : Bool))
    some (fields :: (filtered ++ [row]).map (projectRow fields))

/-! ### Generic list helpers -/

theorem getElem_append_len {α : Type _} (pre : List α) (b : α) (l : List α)
    (h : pre.length < (pre ++ (b :: l)).length) : (pre ++ (b :: l))[pre.length] = b := by
  induction pre with
  | nil => rfl
  | cons a pre ih =>
    simpa using ih (by simp)

/-! ### Index store lemmas -/

theorem merge_foldl_eq (l : List String) (hl : l.Nodup) : ∀ acc : List String,
    l.foldl (fun merged field => if field ∈ merged then merged else merged ++ [field]) acc
      = acc ++ l.filter (fun f => !(f ∈ acc : Bool)) := by
  induction l with
  | nil => intro acc; simp
  | cons f l ih =>
    intro acc
    rcases List.nodup_cons.mp hl with ⟨hf, hl2⟩
    simp only [List.foldl_cons, List.filter_cons]
    by_cases hmem : f ∈ acc
    · rw [if_pos hmem, ih hl2]
      simp [hmem]
    · rw [if_neg hmem, ih hl2]
      have hfil : l.filter (fun x => !(x ∈ acc ++ [f] : Bool)) = l.filter (fun x => !(x ∈ acc : Bool)) := by
        apply List.filter_congr
        intro x hx
        have hxf : x ≠ f := fun he => hf (he ▸ hx)
        simp [List.mem_append, hxf]
      rw [hfil]
      simp [hmem, List.append_assoc]

theorem INDEX_FIELDS_nodup : INDEX_FIELDS.Nodup := by decide

theorem merge_eq (fields : List String) :
    _merge_index_fields fields = fields ++ INDEX_FIELDS.filter (fun f => !(f ∈ fields : Bool)) :=
  merge_foldl_eq INDEX_FIELDS INDEX_FIELDS_nodup fields

theorem mem_merge (f : String) (hf : f ∈ INDEX_FIELDS) (fields : List String) :
    f ∈ _merge_index_fields fields := by
  rw [merge_eq]
  by_cases hmem : f ∈ fields
  · exact List.mem_append_left _ hmem
  · refine List.mem_append_right _ ?_
    simp [List.mem_filter, hf, hmem]

theorem merge_ne_nil (fields : List String) : _merge_index_fields fields ≠ [] := by
  intro h
  have : "lab" ∈ _merge_index_fields fields := mem_merge "lab" (by decide) fields
  rw [h] at this
  exact absurd this (List.not_mem_nil _)

theorem lookup_zip_map (g : String → String) (k : String) : ∀ fields : List String, k ∈ fields →
    List.lookup k (fields.zip (fields.map g)) = some (g k) := by
  intro fields
  induction fields with
  | nil => intro hk; cases hk
  | cons f rest ih =>
    intro hk
    simp only [List.map_cons, List.zip_cons_cons, List.lookup_cons]
    by_cases he : k = f
    · subst he; simp
    · have hbeq : (k == f) = false := beq_false_of_ne he
      rw [hbeq]
      exact ih ((List.mem_cons.mp hk).resolve_left he)

theorem rowGet_projected (fields : List String) (row : IndexRow) (k : String) (hk : k ∈ fields) :
    rowGet (fields.zip (projectRow fields row)) k = rowGet row k := by
  unfold projectRow rowGet
  rw [lookup_zip_map (fun f => (List.lookup f row).getD "") k fields hk]
  rfl

theorem key_projected (fields : List String) (row : IndexRow)
    (hsub : ∀ k ∈ INDEX_KEY_FIELDS, k ∈ fields) :
    _index_key (fields.zip (projectRow fields row)) = _index_key row := by
  unfold _index_key
  exact List.map_congr_left fun k hk => rowGet_projected fields row k (hsub k hk)

theorem key_fields_sub (k : String) (hk : k ∈ INDEX_KEY_FIELDS) : k ∈ INDEX_FIELDS := by
  fin_cases hk <;> decide

theorem parseRecords_proj (fields : List String) (hne : fields ≠ []) (l : List IndexRow) :
    parseRecords fields (l.map (projectRow fields)) = l.map (fun r => fields.zip (projectRow fields r)) := by
  unfold parseRecords
  rw [List.filter_map]
  have hall : List.filter ((fun r : List String => !r.isEmpty) ∘ projectRow fields) l = l := by
    apply List.filter_eq_self.mpr
    intro r _
    have hproj : projectRow fields r ≠ [] := by
      intro h0
      have hl0 := congrArg List.length h0
      simp only [projectRow, List.length_map, List.length_nil] at hl0
      exact hne (List.length_eq_zero.mp hl0)
    simp [Function.comp_apply, List.isEmpty_iff, hproj]
  rw [hall, List.map_map]
  rfl

theorem ensure_fresh_none : _ensure_index_fields none = (INDEX_FIELDS, none) := rfl

theorem ensure_fresh_empty : _ensure_index_fields (some []) = (INDEX_FIELDS, some []) := rfl

theorem append_fresh (file : IndexFile) (row : IndexRow) (h : file = none ∨ file = some []) :
    append_index_csv file row = some [INDEX_FIELDS, projectRow INDEX_FIELDS row] := by
  rcases h with h | h <;> subst h <;> rfl

theorem ensure_canonical (recs : List (List String)) :
    _ensure_index_fields (some (INDEX_FIELDS :: recs)) = (INDEX_FIELDS, some (INDEX_FIELDS :: recs)) :=
  rfl

theorem append_canonical (recs : List (List String)) (row : IndexRow) :
    append_index_csv (some (INDEX_FIELDS :: recs)) row =
      some ((INDEX_FIELDS :: recs) ++ [projectRow INDEX_FIELDS row]) := by
  unfold append_index_csv
  rw [ensure_canonical]
  simp

/-- C8: the auto-unit selection thresholds of `choose_unit_from_min`: the
five boundary samples of the spec, and in general seconds from 1e11 ns,
milliseconds from 1e8 ns, microseconds from 1e5 ns, else nanoseconds. -/
theorem choose_unit_thresholds :
    choose_unit_from_min 0 = "ns" ∧ choose_unit_from_min 99999 = "ns" ∧
    choose_unit_from_min 100000 = "us" ∧ choose_unit_from_min 100000000 = "ms" ∧
    choose_unit_from_min 100000000000 = "s" ∧
    ∀ n : Int, choose_unit_from_min n =
      if 100000000000 ≤ n then "s"
      else if 100000000 ≤ n then "ms"
      else if 100000 ≤ n then "us"
      else "ns" :=
  ⟨rfl, rfl, rfl, rfl, rfl, fun _ => rfl⟩

/-- C10: appending two rows to a missing or empty index file yields exactly
one header line (the canonical schema) followed by the two projected data
rows; the second write does not repeat the header. -/
theorem append_twice_header_once (row1 row2 : IndexRow) :
    append_index_csv (append_index_csv none row1) row2 =
      some [INDEX_FIELDS, projectRow INDEX_FIELDS row1, projectRow INDEX_FIELDS row2] ∧
    append_index_csv (append_index_csv (some []) row1) row2 =
      some [INDEX_FIELDS, projectRow INDEX_FIELDS row1, projectRow INDEX_FIELDS row2] := by
  constructor <;>
    rw [append_fresh _ row1 (by simp), append_canonical [projectRow INDEX_FIELDS row1] row2] <;> rfl

/-- C5 counterexample: appending a row with a column outside the canonical
schema to a missing file writes a header equal to the canonical schema
only; the column `extra` of the row is absent from the header and its
value `Y` is dropped, against the claim that the header is the canonical
schema merged with the columns the row introduces. -/
theorem fresh_header_cx :
    append_index_csv none [("lab", "X"), ("extra", "Y")] =
      some [INDEX_FIELDS, projectRow INDEX_FIELDS [("lab", "X"), ("extra", "Y")]] ∧
    ¬("extra" ∈ INDEX_FIELDS) ∧
    ¬("Y" ∈ projectRow INDEX_FIELDS [("lab", "X"), ("extra", "Y")]) := by
  refine ⟨append_fresh none _ (Or.inl rfl), by decide, by decide⟩

/-- C5 amended: an append against a missing or empty index file writes a
header line equal to the canonical default schema `INDEX_FIELDS` exactly;
columns that the row introduces beyond that schema are not merged into the
header but silently dropped by the projection. -/
theorem fresh_header (row : IndexRow) :
    append_index_csv none row = some [INDEX_FIELDS, projectRow INDEX_FIELDS row] ∧
    append_index_csv (some []) row = some [INDEX_FIELDS, projectRow INDEX_FIELDS row] :=
  ⟨append_fresh none row (Or.inl rfl), append_fresh (some []) row (Or.inr rfl)⟩

/-- C3: a replace-mode write removes every stored row whose identity key
equals the key of the incoming row, appends the incoming row after the
surviving rows under the merged schema, and afterwards exactly one row of
the file carries that key. -/
theorem replace_unique_key (file : IndexFile) (row : IndexRow) :
    update_index_csv file row "replace" =
      some (_merge_index_fields (_read_index_rows file).1 ::
        (((_read_index_rows file).2.filter
            (fun ex => !(_index_key ex = _index_key row : Bool))).map
              (projectRow (_merge_index_fields (_read_index_rows file).1)) ++
          [projectRow (_merge_index_fields (_read_index_rows file).1) row])) ∧
    ((_read_index_rows (update_index_csv file row "replace")).2.countP
        (fun r => (_index_key r = _index_key row : Bool))) = 1 := by
  have hupd : update_index_csv file row "replace" =
      some (_merge_index_fields (_read_index_rows file).1 ::
        ((((_read_index_rows file).2.filter
            (fun ex => !(_index_key ex = _index_key row : Bool))) ++ [row]).map
              (projectRow (_merge_index_fields (_read_index_rows file).1)))) := by
    unfold update_index_csv
    rw [if_neg (show ¬("replace" = "skip") by decide),
      if_neg (show ¬("replace" = "append") by decide)]
  have hsub : ∀ k ∈ INDEX_KEY_FIELDS, k ∈ _merge_index_fields (_read_index_rows file).1 :=
    fun k hk => mem_merge k (key_fields_sub k hk) _
  have hkeys : ∀ ex ∈ (_read_index_rows file).2.filter
      (fun ex => !(_index_key ex = _index_key row : Bool)), ¬(_index_key ex = _index_key row) :=
    fun ex hex => by simpa using (List.mem_filter.mp hex).2
  have hne2 := merge_ne_nil (_read_index_rows file).1
  constructor
  · rw [hupd, List.map_append]
    rfl
  · rw [hupd]
    generalize hF : _merge_index_fields (_read_index_rows file).1 = fields at *
    generalize hL : (_read_index_rows file).2.filter
      (fun ex => !(_index_key ex = _index_key row : Bool)) = filtered at *
    show (parseRecords fields ((filtered ++ [row]).map (projectRow fields))).countP
      (fun r => (_index_key r = _index_key row : Bool)) = 1
    rw [parseRecords_proj fields hne2, List.countP_map, List.countP_append]
    have hzero : filtered.countP
        ((fun r => (_index_key r = _index_key row : Bool)) ∘
          fun r => fields.zip (projectRow fields r)) = 0 :=
      List.countP_eq_zero.mpr (fun ex hex => by
        simp [Function.comp_apply, key_projected fields ex hsub, hkeys ex hex])
    have hone : List.countP
        ((fun r => (_index_key r = _index_key row : Bool)) ∘
          fun r => fields.zip (projectRow fields r)) [row] = 1 := by
      simp [List.countP_cons, Function.comp_apply, key_projected fields row hsub]
    rw [hzero, hone]

theorem proj_zip_self (hdr : List String) (hnd : hdr.Nodup) : ∀ r : List String,
    r.length = hdr.length → hdr.map (rowGet (hdr.zip r)) = r := by
  induction hdr with
  | nil =>
    intro r hr
    simp at hr
    simp [hr]
  | cons f hdr ih =>
    intro r hr
    rcases r with _ | ⟨v, r⟩
    · simp at hr
    · rcases List.nodup_cons.mp hnd with ⟨hf, hnd2⟩
      simp only [List.zip_cons_cons, List.map_cons, List.length_cons] at hr ⊢
      have h1 : rowGet ((f, v) :: hdr.zip r) f = v := by simp [rowGet, List.lookup_cons]
      have hcongr : hdr.map (rowGet ((f, v) :: hdr.zip r)) = hdr.map (rowGet (hdr.zip r)) := by
        apply List.map_congr_left
        intro k hk
        have hkf : k ≠ f := fun he => hf (he ▸ hk)
        simp [rowGet, List.lookup_cons, beq_false_of_ne hkf]
      rw [h1, hcongr, ih hnd2 r (by omega)]

theorem lookup_zip_none (k : String) : ∀ (hdr : List String) (r : List String), k ∉ hdr →
    List.lookup k (hdr.zip r) = none := by
  intro hdr
  induction hdr with
  | nil => intro r _; rfl
  | cons f hdr ih =>
    intro r hk
    rcases r with _ | ⟨v, r⟩
    · rfl
    · have hkf : k ≠ f := fun he => hk (he ▸ List.mem_cons_self f hdr)
      simp only [List.zip_cons_cons, List.lookup_cons, beq_false_of_ne hkf]
      exact ih r (fun hm => hk (List.mem_cons_of_mem f hm))

theorem proj_ext (hdr missing : List String) (hnd : hdr.Nodup)
    (hdisj : ∀ f ∈ missing, f ∉ hdr) (r : List String) (hr : r.length = hdr.length) :
    projectRow (hdr ++ missing) (hdr.zip r) = r ++ List.replicate missing.length "" := by
  unfold projectRow
  rw [List.map_append]
  congr 1
  · exact proj_zip_self hdr hnd r hr
  · rw [List.map_congr_left (g := fun _ => "")
      (fun f hf => by simp [rowGet, lookup_zip_none f hdr r (hdisj f hf)])]
    exact List.map_const' missing ""

theorem parseRecords_zip (hdr : List String) (recs : List (List String)) (hne : hdr ≠ [])
    (hlen : ∀ r ∈ recs, r.length = hdr.length) :
    parseRecords hdr recs = recs.map (fun r => hdr.zip r) := by
  unfold parseRecords
  rw [List.filter_eq_self.mpr]
  intro r hr
  have : r ≠ [] := by
    intro h0
    rw [h0] at hr
    have := hlen [] hr
    simp at this
    exact hne (List.length_eq_zero.mp this.symm)
  simp [List.isEmpty_iff, this]

theorem ensure_migrate (hdr : List String) (recs : List (List String))
    (hne : hdr ≠ []) (hnd : hdr.Nodup)
    (hlen : ∀ r ∈ recs, r.length = hdr.length)
    (hmiss : INDEX_FIELDS.filter (fun f => !(f ∈ hdr : Bool)) ≠ []) :
    _ensure_index_fields (some (hdr :: recs)) =
      (hdr ++ INDEX_FIELDS.filter (fun f => !(f ∈ hdr : Bool)),
       some ((hdr ++ INDEX_FIELDS.filter (fun f => !(f ∈ hdr : Bool))) ::
         recs.map (fun r =>
           r ++ List.replicate (INDEX_FIELDS.filter (fun f => !(f ∈ hdr : Bool))).length ""))) := by
  unfold _ensure_index_fields
  simp only [List.head?_cons, Option.getD_some, List.tail_cons]
  rw [if_neg (show ¬(hdr.isEmpty = true) by simp [List.isEmpty_iff, hne]),
    if_neg (show ¬((INDEX_FIELDS.filter (fun f => !(f ∈ hdr : Bool))).isEmpty = true) by
      simp [List.isEmpty_iff, hmiss])]
  rw [merge_eq, parseRecords_zip hdr recs hne hlen, List.map_map]
  have hproj : recs.map ((projectRow (hdr ++ INDEX_FIELDS.filter (fun f => !(f ∈ hdr : Bool)))) ∘
      (fun r => hdr.zip r)) =
      recs.map (fun r =>
        r ++ List.replicate (INDEX_FIELDS.filter (fun f => !(f ∈ hdr : Bool))).length "") := by
    apply List.map_congr_left
    intro r hr
    have hdisj : ∀ f ∈ INDEX_FIELDS.filter (fun f => !(f ∈ hdr : Bool)), f ∉ hdr := by
      intro f hf
      have := (List.mem_filter.mp hf).2
      simpa using this
    exact proj_ext hdr _ hnd hdisj r (hlen r hr)
  rw [hproj]

theorem mem_of_filter_sub {α : Type _} (p : α → Bool) (l : List α) (r : α) (h : r ∈ l.filter p) :
    r ∈ l := List.mem_of_mem_filter h

/-- C4 counterexample: against a file with the older schema `lab, min`
holding one row with value 5 under `min`, a replace-mode write of a row
with the same identity key rewrites the file with the union schema but
does not preserve the stored value 5 anywhere, because the replace policy
deletes the key-matching row; the claim requires every previously stored
value to survive the first write. -/
theorem schema_migration_cx :
    (("case" : String) ∈ INDEX_FIELDS ∧ ¬(("case" : String) ∈ (["lab", "min"] : List String))) ∧
    rowGet ((_read_index_rows (some [["lab", "min"], ["X", "5"]])).2.getD 0 []) "min" = "5" ∧
    ((update_index_csv (some [["lab", "min"], ["X", "5"]]) [("lab", "X"), ("min", "7")]
        "replace").getD []).all (fun rec => rec.all (fun v => !(v == "5"))) = true := by
  refine ⟨⟨by decide, by decide⟩, by decide, by decide⟩

/-- C4 amended: on the first write (append or replace) against a file whose
header lacks some canonical columns, the file is rewritten with the union
schema: existing columns keep their relative positions as a prefix, the
missing canonical columns are appended at the end in canonical order, and
every surviving old row keeps its values under its original columns and
gets empty values for the new columns; under replace mode the old rows
whose identity key equals the incoming key are removed (their values are
not preserved), as the replace policy requires. -/
theorem schema_migration (hdr : List String) (recs : List (List String)) (row : IndexRow)
    (hne : hdr ≠ []) (hnd : hdr.Nodup)
    (hlen : ∀ r ∈ recs, r.length = hdr.length)
    (hmiss : INDEX_FIELDS.filter (fun f => !(f ∈ hdr : Bool)) ≠ []) :
    _merge_index_fields hdr = hdr ++ INDEX_FIELDS.filter (fun f => !(f ∈ hdr : Bool)) ∧
    append_index_csv (some (hdr :: recs)) row =
      some ((hdr ++ INDEX_FIELDS.filter (fun f => !(f ∈ hdr : Bool))) ::
        (recs.map (fun r =>
            r ++ List.replicate (INDEX_FIELDS.filter (fun f => !(f ∈ hdr : Bool))).length "") ++
          [projectRow (hdr ++ INDEX_FIELDS.filter (fun f => !(f ∈ hdr : Bool))) row])) ∧
    update_index_csv (some (hdr :: recs)) row "replace" =
      some ((hdr ++ INDEX_FIELDS.filter (fun f => !(f ∈ hdr : Bool))) ::
        ((recs.filter (fun r => !(_index_key (hdr.zip r) = _index_key row : Bool))).map
            (fun r =>
              r ++ List.replicate (INDEX_FIELDS.filter (fun f => !(f ∈ hdr : Bool))).length "") ++
          [projectRow (hdr ++ INDEX_FIELDS.filter (fun f => !(f ∈ hdr : Bool))) row])) := by
  refine ⟨merge_eq hdr, ?_, ?_⟩
  · unfold append_index_csv
    rw [ensure_migrate hdr recs hne hnd hlen hmiss]
    simp
  · unfold update_index_csv
    rw [if_neg (show ¬("replace" = "skip") by decide),
      if_neg (show ¬("replace" = "append") by decide)]
    have hread : _read_index_rows (some (hdr :: recs)) = (hdr, parseRecords hdr recs) := rfl
    rw [hread]
    simp only
    rw [merge_eq, parseRecords_zip hdr recs hne hlen, List.filter_map, List.map_append,
      List.map_map]
    have hproj : (recs.filter ((fun ex => !(_index_key ex = _index_key row : Bool)) ∘
        (fun r => hdr.zip r))).map ((projectRow
          (hdr ++ INDEX_FIELDS.filter (fun f => !(f ∈ hdr : Bool)))) ∘ (fun r => hdr.zip r)) =
        (recs.filter (fun r => !(_index_key (hdr.zip r) = _index_key row : Bool))).map
          (fun r =>
            r ++ List.replicate (INDEX_FIELDS.filter (fun f => !(f ∈ hdr : Bool))).length "") := by
      have hfe : recs.filter ((fun ex => !(_index_key ex = _index_key row : Bool)) ∘
          (fun r => hdr.zip r)) =
          recs.filter (fun r => !(_index_key (hdr.zip r) = _index_key row : Bool)) := rfl
      rw [hfe]
      apply List.map_congr_left
      intro r hr
      have hdisj : ∀ f ∈ INDEX_FIELDS.filter (fun f => !(f ∈ hdr : Bool)), f ∉ hdr := by
        intro f hf
        have := (List.mem_filter.mp hf).2
        simpa using this
      exact proj_ext hdr _ hnd hdisj r (hlen r (List.mem_of_mem_filter hr))
    rw [hproj]
    simp

/-! ### Varint lemmas -/

theorem and127_eq_mod (n : Nat) : n &&& 127 = n % 128 := by
  simpa using Nat.and_pow_two_sub_one_eq_mod n 7

theorem shiftRight7_eq_div (n : Nat) : n >>> 7 = n / 128 := by
  simpa using Nat.shiftRight_eq_div_pow n 7

theorem _write_varint_aux_fuel : ∀ f1 : Nat, ∀ value f2 : Nat, value ≤ f1 → value ≤ f2 →
    _write_varint_aux f1 value = _write_varint_aux f2 value := by
  intro f1
  induction f1 with
  | zero =>
    intro value f2 h1 _
    have hv : value = 0 := Nat.le_zero.mp h1
    subst hv
    cases f2 with
    | zero => rfl
    | succ f2 => simp [_write_varint_aux]
  | succ f1 ih =>
    intro value f2 h1 h2
    cases f2 with
    | zero =>
      have hv : value = 0 := Nat.le_zero.mp h2
      subst hv
      simp [_write_varint_aux]
    | succ f2 =>
      simp only [_write_varint_aux]
      by_cases hr : value >>> 7 = 0
      · simp [hr]
      · have hlt : value >>> 7 < value := by
          rw [shiftRight7_eq_div] at hr ⊢
          exact Nat.div_lt_self (by omega) (by norm_num)
        simp only [hr, if_neg]
        rw [ih (value >>> 7) f2 (by omega) (by omega)]

theorem _write_varint_eq (value : Nat) :
    _write_varint value =
      if value / 128 = 0 then [value % 128]
      else ((value % 128) ||| 128) :: _write_varint (value / 128) := by
  unfold _write_varint
  cases hv : value with
  | zero => simp [_write_varint_aux]
  | succ v =>
    simp only [_write_varint_aux, and127_eq_mod, shiftRight7_eq_div]
    by_cases hr : (v + 1) / 128 = 0
    · simp [hr]
    · have hlt : (v + 1) / 128 < v + 1 := Nat.div_lt_self (by omega) (by norm_num)
      simp only [hr, if_neg]
      rw [_write_varint_aux_fuel v ((v + 1) / 128) ((v + 1) / 128) (by omega) (le_refl _)]

theorem _write_varint_ne_nil (value : Nat) : _write_varint value ≠ [] := by
  rw [_write_varint_eq]
  split <;> simp

theorem _write_varint_length_le : ∀ k value : Nat, value < 2 ^ (7 * (k + 1)) →
    (_write_varint value).length ≤ k + 1 := by
  intro k
  induction k with
  | zero =>
    intro value hv
    rw [_write_varint_eq, if_pos (by omega)]
    simp
  | succ k ih =>
    intro value hv
    rw [_write_varint_eq]
    by_cases hr : value / 128 = 0
    · simp [hr]
    · rw [if_neg hr]
      have hdiv : value / 128 < 2 ^ (7 * (k + 1)) := by
        apply Nat.div_lt_of_lt_mul
        calc value < 2 ^ (7 * (k + 2)) := hv
        _ = 128 * 2 ^ (7 * (k + 1)) := by ring
      simpa using ih (value / 128) hdiv

theorem byte_no_cont (n : Nat) (h : n < 128) : n &&& 128 = 0 := by
  have h7 : n.testBit 7 = false := Nat.testBit_lt_two_pow (by omega : n < 2 ^ 7)
  have h2 := Nat.and_two_pow n 7
  rw [h7] at h2
  norm_num at h2
  exact h2

theorem cont_bit (n : Nat) : (n ||| 128) &&& 128 ≠ 0 := by
  have h128 : Nat.testBit 128 7 = true := by decide
  have hbit : (n ||| 128).testBit 7 = true := by
    rw [Nat.testBit_lor, h128, Bool.or_true]
  have h2 := Nat.and_two_pow (n ||| 128) 7
  rw [hbit] at h2
  norm_num at h2
  omega

theorem cont_and127 (n : Nat) : ((n % 128) ||| 128) &&& 127 = n % 128 := by
  apply Nat.eq_of_testBit_eq
  intro i
  rw [show (127 : Nat) = 2 ^ 7 - 1 by norm_num, show (128 : Nat) = 2 ^ 7 by norm_num]
  rw [Nat.testBit_and, Nat.testBit_lor, Nat.testBit_two_pow_sub_one, Nat.testBit_two_pow,
    Nat.testBit_mod_two_pow]
  by_cases hi : i < 7
  · simp [hi, show ¬(7 = i) by omega]
  · simp [hi, show ¬(i < 7) by omega]

theorem split7 (n s : Nat) : ((n % 128) <<< s) ||| ((n / 128) <<< (s + 7)) = n <<< s := by
  apply Nat.eq_of_testBit_eq
  intro i
  rw [show (128 : Nat) = 2 ^ 7 by norm_num, ← Nat.shiftRight_eq_div_pow]
  rw [Nat.testBit_lor, Nat.testBit_shiftLeft, Nat.testBit_shiftLeft, Nat.testBit_shiftLeft,
    Nat.testBit_mod_two_pow, Nat.testBit_shiftRight]
  by_cases h1 : s ≤ i
  · by_cases h2 : s + 7 ≤ i
    · have h3 : ¬(i - s < 7) := by omega
      simp [ge_iff_le, h1, h2, h3, show 7 + (i - (s + 7)) = i - s by omega]
    · simp [ge_iff_le, h1, h2, show i - s < 7 by omega]
  · simp [ge_iff_le, h1, show ¬(s + 7 ≤ i) by omega]

theorem _read_varint_aux_spec : ∀ fuel n value shift : Nat, ∀ pre rest : List Nat,
    (_write_varint n).length ≤ fuel →
    shift + 7 * ((_write_varint n).length - 1) ≤ 70 →
    _read_varint_aux (pre ++ (_write_varint n ++ rest)) fuel pre.length value shift
      = .ok (value ||| (n <<< shift), pre.length + (_write_varint n).length) := by
  intro fuel
  induction fuel with
  | zero =>
    intro n value shift pre rest hlen _
    have := _write_varint_ne_nil n
    have : (_write_varint n).length ≠ 0 := fun h0 => this (List.length_eq_zero.mp h0)
    omega
  | succ fuel ih =>
    intro n value shift pre rest hlen hshift
    by_cases h0 : n / 128 = 0
    · have hwv : _write_varint n = [n % 128] := by rw [_write_varint_eq, if_pos h0]
      rw [hwv]
      have hsmall : n % 128 = n := by omega
      have hdata : pre ++ ([n % 128] ++ rest) = pre ++ (n % 128 :: rest) := rfl
      rw [hdata]
      have hofflt : pre.length < (pre ++ (n % 128 :: rest)).length := by
        simp
      rw [_read_varint_aux]
      rw [dif_pos hofflt]
      simp only [getElem_append_len pre (n % 128) rest hofflt]
      rw [if_pos (byte_no_cont (n % 128) (by omega))]
      rw [and127_eq_mod]
      simp [hsmall]
    · have hwv : _write_varint n = ((n % 128) ||| 128) :: _write_varint (n / 128) := by
        rw [_write_varint_eq, if_neg h0]
      have hlen2 : (_write_varint (n / 128)).length = (_write_varint n).length - 1 := by
        rw [hwv]; simp
      have hne2 : (_write_varint (n / 128)).length ≠ 0 := fun hz =>
        _write_varint_ne_nil (n / 128) (List.length_eq_zero.mp hz)
      rw [hwv]
      have hdata : pre ++ ((((n % 128) ||| 128) :: _write_varint (n / 128)) ++ rest) =
          pre ++ (((n % 128) ||| 128) :: (_write_varint (n / 128) ++ rest)) := by simp
      rw [hdata]
      have hofflt : pre.length < (pre ++ (((n % 128) ||| 128) :: (_write_varint (n / 128) ++ rest))).length := by
        simp
      rw [_read_varint_aux]
      rw [dif_pos hofflt]
      simp only [getElem_append_len pre _ _ hofflt]
      rw [if_neg (by simpa using cont_bit (n % 128))]
      rw [if_neg (by omega : ¬(shift + 7 > 70))]
      rw [cont_and127]
      have hrearr : pre ++ (((n % 128) ||| 128) :: (_write_varint (n / 128) ++ rest)) =
          (pre ++ [(n % 128) ||| 128]) ++ (_write_varint (n / 128) ++ rest) := by simp
      have hlen3 : pre.length + 1 = (pre ++ [(n % 128) ||| 128]).length := by simp
      rw [hrearr, hlen3]
      rw [ih (n / 128) (value ||| ((n % 128) <<< shift)) (shift + 7) (pre ++ [(n % 128) ||| 128]) rest
        (by omega) (by omega)]
      rw [Nat.lor_assoc, split7]
      have : (pre ++ [(n % 128) ||| 128]).length + (_write_varint (n / 128)).length =
          pre.length + (_write_varint n).length := by
        simp [hwv]
        omega
      rw [this, ← hwv]

theorem _read_varint_spec (n : Nat) (hn : n < 2 ^ 77) (pre rest : List Nat) :
    _read_varint (pre ++ (_write_varint n ++ rest)) pre.length =
      .ok (n, pre.length + (_write_varint n).length) := by
  have hlen : (_write_varint n).length ≤ 11 := _write_varint_length_le 10 n (by norm_num at hn ⊢; omega)
  unfold _read_varint
  rw [_read_varint_aux_spec 12 n 0 0 pre rest (by omega) (by omega)]
  simp

/-! ### Zigzag lemmas -/

/-- Total arithmetic form of the zigzag map, used to describe the payload
byte stream in the round-trip lemmas. -/
def zigzagN (d : Int) : Nat :=
  if 0 ≤ d then (2 * d).toNat else (-2 * d - 1).toNat

theorem _zigzag_encode_ok (d : Int) (h1 : -(2 ^ 63) ≤ d) (h2 : d ≤ 2 ^ 63 - 1) :
    _zigzag_encode d = .ok (zigzagN d) := by
  unfold _zigzag_encode zigzagN
  rw [if_neg (by omega)]
  by_cases hd : 0 ≤ d
  · rw [if_pos hd, if_pos hd]
  · rw [if_neg hd, if_neg hd]

theorem zigzagN_lt (d : Int) (h1 : -(2 ^ 63) ≤ d) (h2 : d ≤ 2 ^ 63 - 1) :
    zigzagN d < 2 ^ 77 := by
  unfold zigzagN
  by_cases hd : 0 ≤ d
  · rw [if_pos hd]; omega
  · rw [if_neg hd]; omega

theorem _zigzag_decode_zigzagN (d : Int) : _zigzag_decode (zigzagN d) = d := by
  unfold _zigzag_decode zigzagN
  by_cases hd : 0 ≤ d
  · rw [if_pos hd]
    rcases Int.eq_ofNat_of_zero_le hd with ⟨m, rfl⟩
    have h1 : ((2 * (m : Int))).toNat = 2 * m := by omega
    rw [h1, if_pos (by omega)]
    omega
  · rw [if_neg hd]
    have hm : ∃ m : Nat, d = -((m : Int) + 1) := ⟨(-d - 1).toNat, by omega⟩
    rcases hm with ⟨m, rfl⟩
    have h1 : (-2 * (-((m : Int) + 1)) - 1).toNat = 2 * m + 1 := by omega
    rw [h1, if_neg (by omega)]
    have h2 : (2 * m + 1) / 2 = m := by omega
    rw [h2]
    ring

/-! ### Payload stream lemmas -/

/-- The unit scaling of one raw sample inside `_encode_samples`:
`(ns_value + scale // 2) // scale` with floor division. -/
def scaleVal (scale : Nat) (v : Int) : Int :=
  Int.fdiv (v + ((scale / 2 : Nat) : Int)) (scale : Int)

/-- Consecutive deltas of a list, the first against `prev`. -/
def deltasFrom (prev : Int) : List Int → List Int
  | [] => []
  | v :: rest => (v - prev) :: deltasFrom v rest

/-- Predicate: every delta of the scaled sample sequence lies in the signed
64-bit range, so the zigzag range guard never fires. -/
def deltasOk (scale : Nat) (samples : List Int) : Prop :=
  ∀ d ∈ deltasFrom 0 (samples.map (scaleVal scale)), -(2 ^ 63) ≤ d ∧ d ≤ 2 ^ 63 - 1

instance (scale : Nat) (samples : List Int) : Decidable (deltasOk scale samples) := by
  unfold deltasOk
  infer_instance

/-- The byte stream that `_encode_samples` sends to the handle on success:
the concatenated varints of the zigzag deltas of the scaled samples. -/
def payloadStream (scale : Nat) (prev : Int) : List Int → List Nat
  | [] => []
  | v :: rest =>
    _write_varint (zigzagN (scaleVal scale v - prev)) ++ payloadStream scale (scaleVal scale v) rest

theorem _encode_samples_go_ok (scale : Nat) : ∀ (samples : List Int) (prev : Int)
    (written buffer : List Nat),
    (∀ d ∈ deltasFrom prev (samples.map (scaleVal scale)), -(2 ^ 63) ≤ d ∧ d ≤ 2 ^ 63 - 1) →
    _encode_samples_go scale samples prev written buffer =
      (written ++ buffer ++ payloadStream scale prev samples, none) := by
  intro samples
  induction samples with
  | nil =>
    intro prev written buffer _
    simp [_encode_samples_go, payloadStream]
  | cons v rest ih =>
    intro prev written buffer hd
    have hdv := hd (scaleVal scale v - prev) (by simp [deltasFrom])
    have hrest : ∀ d ∈ deltasFrom (scaleVal scale v) (rest.map (scaleVal scale)),
        -(2 ^ 63) ≤ d ∧ d ≤ 2 ^ 63 - 1 := fun d hdm => hd d (by simp [deltasFrom, hdm])
    simp only [_encode_samples_go]
    rw [show (v + ((scale / 2 : Nat) : Int)).fdiv ((scale : Nat) : Int) = scaleVal scale v from rfl]
    rw [_zigzag_encode_ok _ hdv.1 hdv.2]
    simp only [payloadStream]
    by_cases hflush : 64 * 1024 ≤ (buffer ++ _write_varint (zigzagN (scaleVal scale v - prev))).length
    · rw [if_pos hflush, ih (scaleVal scale v) _ _ hrest]
      simp [List.append_assoc]
    · rw [if_neg hflush, ih (scaleVal scale v) _ _ hrest]
      simp [List.append_assoc]

theorem _encode_samples_go_err (scale : Nat) : ∀ (samples : List Int) (prev : Int)
    (written buffer : List Nat),
    (∃ d ∈ deltasFrom prev (samples.map (scaleVal scale)), d < -(2 ^ 63) ∨ 2 ^ 63 - 1 < d) →
    ∃ w, _encode_samples_go scale samples prev written buffer = (w, some "delta out of int64 range") := by
  intro samples
  induction samples with
  | nil =>
    intro prev written buffer hbad
    simp [deltasFrom] at hbad
  | cons v rest ih =>
    intro prev written buffer hbad
    simp only [_encode_samples_go]
    rw [show (v + ((scale / 2 : Nat) : Int)).fdiv ((scale : Nat) : Int) = scaleVal scale v from rfl]
    by_cases hdv : scaleVal scale v - prev < -(2 ^ 63) ∨ scaleVal scale v - prev > 2 ^ 63 - 1
    · refine ⟨written, ?_⟩
      rw [show _zigzag_encode (scaleVal scale v - prev) = .error "delta out of int64 range" by
        unfold _zigzag_encode; rw [if_pos hdv]]
    · rw [show _zigzag_encode (scaleVal scale v - prev) = .ok (zigzagN (scaleVal scale v - prev)) by
        push_neg at hdv
        exact _zigzag_encode_ok _ hdv.1 hdv.2]
      show ∃ w, (if 64 * 1024 ≤ (buffer ++ _write_varint (zigzagN (scaleVal scale v - prev))).length then
          _encode_samples_go scale rest (scaleVal scale v)
            (written ++ (buffer ++ _write_varint (zigzagN (scaleVal scale v - prev)))) []
        else _encode_samples_go scale rest (scaleVal scale v) written
          (buffer ++ _write_varint (zigzagN (scaleVal scale v - prev)))) =
        (w, some "delta out of int64 range")
      have hbad2 : ∃ d ∈ deltasFrom (scaleVal scale v) (rest.map (scaleVal scale)),
          d < -(2 ^ 63) ∨ 2 ^ 63 - 1 < d := by
        rcases hbad with ⟨d, hdm, hdr⟩
        simp only [List.map_cons, deltasFrom, List.mem_cons] at hdm
        rcases hdm with rfl | hdm
        · exact absurd (by omega : scaleVal scale v - prev < -(2 ^ 63) ∨ scaleVal scale v - prev > 2 ^ 63 - 1) hdv
        · exact ⟨d, hdm, hdr⟩
      by_cases hflush : 64 * 1024 ≤ (buffer ++ _write_varint (zigzagN (scaleVal scale v - prev))).length
      · rw [if_pos hflush]
        exact ih (scaleVal scale v) _ _ hbad2
      · rw [if_neg hflush]
        exact ih (scaleVal scale v) _ _ hbad2

theorem payloadStream_at_one (v prev : Int) (rest : List Int) :
    payloadStream 1 prev (v :: rest) =
      _write_varint (zigzagN (v - prev)) ++ payloadStream 1 v rest := by
  have h1 : scaleVal 1 v = v := by
    unfold scaleVal
    norm_num
  simp [payloadStream, h1]

theorem decodeLoop_step (payload : List Nat) (fs ts : Nat) (r : Nat) (offset : Nat) (prev : Int)
    (raw off2 : Nat) (hofflt : offset < payload.length)
    (hread : _read_varint payload offset = .ok (raw, off2)) :
    decodeLoop payload fs ts (r + 1) offset prev =
      match decodeLoop payload fs ts r off2 (prev + _zigzag_decode raw) with
      | .error e => .error e
      | .ok rest2 => .ok ((Int.fdiv ((prev + _zigzag_decode raw) * (fs : Int) +
          ((ts / 2 : Nat) : Int)) (ts : Int)) :: rest2) := by
  simp only [decodeLoop]
  rw [if_pos hofflt, hread]

theorem decodeLoop_exact : ∀ (samples : List Int) (prev : Int) (pre : List Nat) (k : Nat),
    (∀ d ∈ deltasFrom prev samples, -(2 ^ 63) ≤ d ∧ d ≤ 2 ^ 63 - 1) →
    decodeLoop (pre ++ payloadStream 1 prev samples) 1 1 (samples.length + k) pre.length prev =
      .ok samples := by
  intro samples
  induction samples with
  | nil =>
    intro prev pre k _
    simp only [payloadStream, List.append_nil, List.length_nil, Nat.zero_add]
    cases k with
    | zero => rfl
    | succ k =>
      simp only [decodeLoop]
      rw [if_neg (by omega : ¬(pre.length < pre.length))]
  | cons v rest ih =>
    intro prev pre k hd
    have hdv := hd (v - prev) (by simp [deltasFrom])
    have hrest : ∀ d ∈ deltasFrom v rest, -(2 ^ 63) ≤ d ∧ d ≤ 2 ^ 63 - 1 :=
      fun d hdm => hd d (by simp [deltasFrom, hdm])
    rw [payloadStream_at_one]
    have hne := _write_varint_ne_nil (zigzagN (v - prev))
    have hofflt : pre.length <
        (pre ++ (_write_varint (zigzagN (v - prev)) ++ payloadStream 1 v rest)).length := by
      rcases List.exists_cons_of_ne_nil hne with ⟨b, l, hb⟩
      simp [hb]
    have hcount : (v :: rest).length + k = (rest.length + k) + 1 := by simp; omega
    rw [hcount]
    rw [decodeLoop_step _ 1 1 (rest.length + k) pre.length prev
      (zigzagN (v - prev)) (pre.length + (_write_varint (zigzagN (v - prev))).length) hofflt
      (_read_varint_spec (zigzagN (v - prev)) (zigzagN_lt _ hdv.1 hdv.2) pre
        (payloadStream 1 v rest))]
    rw [_zigzag_decode_zigzagN]
    have hv : prev + (v - prev) = v := by ring
    rw [hv]
    have hassoc : pre ++ (_write_varint (zigzagN (v - prev)) ++ payloadStream 1 v rest) =
        (pre ++ _write_varint (zigzagN (v - prev))) ++ payloadStream 1 v rest := by
      simp [List.append_assoc]
    have hlen2 : pre.length + (_write_varint (zigzagN (v - prev))).length =
        (pre ++ _write_varint (zigzagN (v - prev))).length := by simp
    rw [hassoc, hlen2]
    rw [ih v (pre ++ _write_varint (zigzagN (v - prev))) k hrest]
    have hval : Int.fdiv (v * ((1 : Nat) : Int) + (((1 : Nat) / 2 : Nat) : Int)) ((1 : Nat) : Int) = v := by
      norm_num [Int.fdiv_one]
    rw [hval]

/-! ### Header stream lemmas -/

/-- The length-prefixed concatenation of the tag or arg strings. -/
def strsStream : List (List Nat) → List Nat
  | [] => []
  | s :: rest => toLE 4 s.length ++ s ++ strsStream rest

/-- The byte stream `_write_header` produces when all range checks pass. -/
def headerStream (h : RawHeader) : List Nat :=
  MAGIC ++ [VERSION, (UNIT_ENUM h.unit).getD 0, 0, 0] ++
  (toLE 8 h.sample_count ++ (toLE 8 h.iters ++ (toLE 8 h.warmup ++
    (toLE 4 (h.pin_cpu.emod (2 ^ 32)).toNat ++ toLE 4 h.tags.length)))) ++
  toLE 4 h.case_name.length ++ h.case_name ++ strsStream h.tags ++
  toLE 4 h.args.length ++ strsStream h.args

/-- Range constraints of the fixed-width header fields: all the
`struct.pack` calls of `_write_header` succeed and the unit is a known
enum member. -/
def headerOk (h : RawHeader) : Prop :=
  h.sample_count < 2 ^ 64 ∧ h.iters < 2 ^ 64 ∧ h.warmup < 2 ^ 64 ∧
  -(2 ^ 31) ≤ h.pin_cpu ∧ h.pin_cpu < 2 ^ 31 ∧ h.tags.length < 2 ^ 32 ∧
  h.case_name.length < 2 ^ 32 ∧ h.args.length < 2 ^ 32 ∧
  (∀ t ∈ h.tags, t.length < 2 ^ 32) ∧ (∀ a ∈ h.args, a.length < 2 ^ 32) ∧
  (UNIT_ENUM h.unit).isSome = true

instance (h : RawHeader) : Decidable (headerOk h) := by
  unfold headerOk
  infer_instance

/-- Range constraints on the caller-controlled header fields other than
`unit` and `sample_count` (which the encoder overwrites). -/
def headerFieldsOk (h : RawHeader) : Prop :=
  h.iters < 2 ^ 64 ∧ h.warmup < 2 ^ 64 ∧
  -(2 ^ 31) ≤ h.pin_cpu ∧ h.pin_cpu < 2 ^ 31 ∧ h.tags.length < 2 ^ 32 ∧
  h.case_name.length < 2 ^ 32 ∧ h.args.length < 2 ^ 32 ∧
  (∀ t ∈ h.tags, t.length < 2 ^ 32) ∧ (∀ a ∈ h.args, a.length < 2 ^ 32)

instance (h : RawHeader) : Decidable (headerFieldsOk h) := by
  unfold headerFieldsOk
  infer_instance

theorem headerOk_of_fieldsOk (h : RawHeader) (hf : headerFieldsOk h) (sc : Nat)
    (hsc : sc < 2 ^ 64) (u : String) (hu : (UNIT_ENUM u).isSome = true) :
    headerOk { h with unit := u, sample_count := sc } := by
  unfold headerFieldsOk at hf
  unfold headerOk
  exact ⟨hsc, hf.1, hf.2.1, hf.2.2.1, hf.2.2.2.1, hf.2.2.2.2.1, hf.2.2.2.2.2.1,
    hf.2.2.2.2.2.2.1, hf.2.2.2.2.2.2.2.1, hf.2.2.2.2.2.2.2.2, hu⟩

theorem writeStrs_ok : ∀ ss : List (List Nat), (∀ s ∈ ss, s.length < 2 ^ 32) →
    ∀ w : List Nat, writeStrs ss w = (w ++ strsStream ss, none) := by
  intro ss
  induction ss with
  | nil => intro _ w; simp [writeStrs, strsStream]
  | cons s rest ih =>
    intro hs w
    simp only [writeStrs, strsStream]
    rw [if_pos (hs s (List.mem_cons_self s rest))]
    rw [ih (fun t ht => hs t (List.mem_cons_of_mem s ht))]
    simp [List.append_assoc]

theorem _write_header_ok (h : RawHeader) (hok : headerOk h) :
    _write_header h = (headerStream h, none) := by
  obtain ⟨h1, h2, h3, h4, h5, h6, h7, h8, h9, h10, h11⟩ := hok
  rcases hu : UNIT_ENUM h.unit with _ | e
  · rw [hu] at h11; simp at h11
  · unfold _write_header
    rw [hu]
    simp only
    rw [if_pos ⟨h1, h2, h3, h4, h5, h6⟩, if_pos h7]
    simp only [writeStrs_ok h.tags h9]
    rw [if_pos h8, writeStrs_ok h.args h10]
    unfold headerStream
    rw [hu]
    simp [List.append_assoc]

theorem toLE_length : ∀ w v : Nat, (toLE w v).length = w := by
  intro w
  induction w with
  | zero => intro v; rfl
  | succ w ih => intro v; simp [toLE, ih]

theorem fromLE_toLE : ∀ w v : Nat, v < 256 ^ w → fromLE (toLE w v) = v := by
  intro w
  induction w with
  | zero =>
    intro v hv
    simp at hv
    simp [toLE, fromLE, hv]
  | succ w ih =>
    intro v hv
    have hdiv : v / 256 < 256 ^ w := by
      apply Nat.div_lt_of_lt_mul
      calc v < 256 ^ (w + 1) := hv
      _ = 256 * 256 ^ w := by ring
    simp only [toLE, fromLE, ih (v / 256) hdiv]
    omega

theorem take_len_app {α : Type _} (l₁ l₂ : List α) (n : Nat) (h : l₁.length = n) :
    (l₁ ++ l₂).take n = l₁ := List.take_left' h

theorem drop_len_app {α : Type _} (l₁ l₂ : List α) (n : Nat) (h : l₁.length = n) :
    (l₁ ++ l₂).drop n = l₂ := List.drop_left' h

theorem readStrs_spec (lenErr bodyErr : String) : ∀ ss : List (List Nat),
    (∀ s ∈ ss, s.length < 2 ^ 32) → ∀ rest : List Nat,
    readStrs lenErr bodyErr ss.length (strsStream ss ++ rest) = .ok (ss, rest) := by
  intro ss
  induction ss with
  | nil => intro _ rest; simp [readStrs, strsStream]
  | cons s tail ih =>
    intro hs rest
    have hslen : s.length < 2 ^ 32 := hs s (List.mem_cons_self s tail)
    have harr : strsStream (s :: tail) ++ rest =
        toLE 4 s.length ++ (s ++ (strsStream tail ++ rest)) := by
      simp [strsStream, List.append_assoc]
    rw [List.length_cons, harr]
    simp only [readStrs]
    rw [take_len_app _ _ 4 (toLE_length 4 s.length)]
    rw [drop_len_app _ _ 4 (toLE_length 4 s.length)]
    rw [toLE_length 4 s.length]
    rw [if_neg (by omega : ¬(4 ≠ 4))]
    rw [fromLE_toLE 4 s.length (by norm_num at hslen ⊢; omega)]
    rw [take_len_app s _ s.length rfl]
    rw [if_neg (by omega : ¬(s.length ≠ s.length))]
    rw [drop_len_app s _ s.length rfl]
    rw [ih (fun t ht => hs t (List.mem_cons_of_mem s ht)) rest]

theorem fixed_block_fields (A B C D E : List Nat)
    (hA : A.length = 8) (hB : B.length = 8) (hC : C.length = 8) (hD : D.length = 4)
    (hE : E.length = 4) :
    ((A ++ (B ++ (C ++ (D ++ E)))).take 8 = A) ∧
    (((A ++ (B ++ (C ++ (D ++ E)))).drop 8).take 8 = B) ∧
    (((A ++ (B ++ (C ++ (D ++ E)))).drop 16).take 8 = C) ∧
    (((A ++ (B ++ (C ++ (D ++ E)))).drop 24).take 4 = D) ∧
    (((A ++ (B ++ (C ++ (D ++ E)))).drop 28).take 4 = E) := by
  have d8 : (A ++ (B ++ (C ++ (D ++ E)))).drop 8 = B ++ (C ++ (D ++ E)) :=
    drop_len_app _ _ 8 hA
  have d16 : (A ++ (B ++ (C ++ (D ++ E)))).drop 16 = C ++ (D ++ E) := by
    rw [show (16 : Nat) = 8 + 8 from rfl, ← List.drop_drop, d8]
    exact drop_len_app _ _ 8 hB
  have d24 : (A ++ (B ++ (C ++ (D ++ E)))).drop 24 = D ++ E := by
    rw [show (24 : Nat) = 16 + 8 from rfl, ← List.drop_drop, d16]
    exact drop_len_app _ _ 8 hC
  have d28 : (A ++ (B ++ (C ++ (D ++ E)))).drop 28 = E := by
    rw [show (28 : Nat) = 24 + 4 from rfl, ← List.drop_drop, d24]
    exact drop_len_app _ _ 4 hD
  refine ⟨take_len_app _ _ 8 hA, ?_, ?_, ?_, ?_⟩
  · rw [d8]; exact take_len_app _ _ 8 hB
  · rw [d16]; exact take_len_app _ _ 8 hC
  · rw [d24]; exact take_len_app _ _ 4 hD
  · rw [d28, ← hE, List.take_length]

theorem unit_enum_cases (u : String) (hu : (UNIT_ENUM u).isSome = true) :
    (UNIT_ENUM u).getD 0 < UNIT_NAMES.length ∧
    UNIT_NAMES.getD ((UNIT_ENUM u).getD 0) "" = u := by
  by_cases h1 : u = "ns"
  · subst h1; decide
  · by_cases h2 : u = "us"
    · subst h2; decide
    · by_cases h3 : u = "ms"
      · subst h3; decide
      · by_cases h4 : u = "s"
        · subst h4; decide
        · exfalso
          unfold UNIT_ENUM at hu
          rw [if_neg h1, if_neg h2, if_neg h3, if_neg h4] at hu
          simp at hu

theorem fromLEi32_roundtrip (p : Int) (h4 : -(2 ^ 31) ≤ p) (h5 : p < 2 ^ 31) :
    fromLEi32 (toLE 4 (p.emod (2 ^ 32)).toNat) = p := by
  have hpm : p.emod (2 ^ 32) = p % 4294967296 := by
    rw [show ((2 : Int) ^ 32) = 4294967296 by norm_num]
    rfl
  rw [hpm] at *
  have h31 : (2 : Int) ^ 31 = 2147483648 := by norm_num
  rw [h31] at h4 h5
  have hnn : 0 ≤ p % 4294967296 := Int.emod_nonneg p (by norm_num)
  have htn : ((p % 4294967296).toNat : Int) = p % 4294967296 := Int.toNat_of_nonneg hnn
  have hmod : p % 4294967296 = p ∨ p % 4294967296 = p + 4294967296 := by omega
  have hrange : (p % 4294967296).toNat < 256 ^ 4 := by
    have h2564 : (256 : Nat) ^ 4 = 4294967296 := by norm_num
    rw [h2564]
    omega
  simp only [fromLEi32]
  rw [fromLE_toLE 4 _ hrange]
  by_cases hge : (p % 4294967296).toNat ≥ 2 ^ 31
  · rw [if_pos hge]
    have hge2 : (p % 4294967296).toNat ≥ 2147483648 := by
      have : (2 : Nat) ^ 31 = 2147483648 := by norm_num
      omega
    omega
  · rw [if_neg hge]
    have hge2 : ¬((p % 4294967296).toNat ≥ 2147483648) := by
      have : (2 : Nat) ^ 31 = 2147483648 := by norm_num
      omega
    omega

theorem _read_header_spec (h : RawHeader) (hok : headerOk h) (payload : List Nat) :
    _read_header (headerStream h ++ payload) = .ok (h, payload) := by
  obtain ⟨h1, h2, h3, h4, h5, h6, h7, h8, h9, h10, h11⟩ := hok
  obtain ⟨henum, hname⟩ := unit_enum_cases h.unit h11
  have h2568 : (256 : Nat) ^ 8 = 2 ^ 64 := by norm_num
  have h2564 : (256 : Nat) ^ 4 = 2 ^ 32 := by norm_num
  have hsc256 : h.sample_count < 256 ^ 8 := by omega
  have hit256 : h.iters < 256 ^ 8 := by omega
  have hwu256 : h.warmup < 256 ^ 8 := by omega
  have htc256 : h.tags.length < 256 ^ 4 := by omega
  have hcl256 : h.case_name.length < 256 ^ 4 := by omega
  have hac256 : h.args.length < 256 ^ 4 := by omega
  have hstream : headerStream h ++ payload =
      MAGIC ++ ([VERSION, (UNIT_ENUM h.unit).getD 0, 0, 0] ++
        ((toLE 8 h.sample_count ++ (toLE 8 h.iters ++ (toLE 8 h.warmup ++
          (toLE 4 (h.pin_cpu.emod (2 ^ 32)).toNat ++ toLE 4 h.tags.length)))) ++
        (toLE 4 h.case_name.length ++ (h.case_name ++ (strsStream h.tags ++
          (toLE 4 h.args.length ++ (strsStream h.args ++ payload))))))) := by
    unfold headerStream
    simp [List.append_assoc]
  rw [hstream]
  simp only [_read_header]
  rw [take_len_app MAGIC _ 4 rfl, drop_len_app MAGIC _ 4 rfl]
  rw [if_neg (by simp : ¬(MAGIC ≠ MAGIC))]
  rw [take_len_app [VERSION, (UNIT_ENUM h.unit).getD 0, 0, 0] _ 4 rfl,
    drop_len_app [VERSION, (UNIT_ENUM h.unit).getD 0, 0, 0] _ 4 rfl]
  rw [if_neg (by simp : ¬(([VERSION, (UNIT_ENUM h.unit).getD 0, 0, 0] : List Nat).length ≠ 4))]
  rw [if_neg (by simp [VERSION] :
    ¬(([VERSION, (UNIT_ENUM h.unit).getD 0, 0, 0] : List Nat).getD 0 0 ≠ VERSION))]
  rw [show ([VERSION, (UNIT_ENUM h.unit).getD 0, 0, 0] : List Nat).getD 1 0 =
    (UNIT_ENUM h.unit).getD 0 from rfl]
  rw [if_neg (by omega : ¬((UNIT_ENUM h.unit).getD 0 ≥ UNIT_NAMES.length))]
  have hfixlen : (toLE 8 h.sample_count ++ (toLE 8 h.iters ++ (toLE 8 h.warmup ++
      (toLE 4 (h.pin_cpu.emod (2 ^ 32)).toNat ++ toLE 4 h.tags.length)))).length = 32 := by
    simp [toLE_length]
  rw [take_len_app _ _ 32 hfixlen, drop_len_app _ _ 32 hfixlen]
  rw [if_neg (by rw [hfixlen]; omega : ¬((toLE 8 h.sample_count ++ (toLE 8 h.iters ++ (toLE 8 h.warmup ++
      (toLE 4 (h.pin_cpu.emod (2 ^ 32)).toNat ++ toLE 4 h.tags.length)))).length ≠ 32))]
  obtain ⟨f1, f2, f3, f4, f5⟩ := fixed_block_fields (toLE 8 h.sample_count) (toLE 8 h.iters)
    (toLE 8 h.warmup) (toLE 4 (h.pin_cpu.emod (2 ^ 32)).toNat) (toLE 4 h.tags.length)
    (toLE_length _ _) (toLE_length _ _) (toLE_length _ _) (toLE_length _ _) (toLE_length _ _)
  rw [f1, f2, f3, f4, f5]
  rw [fromLE_toLE 8 h.sample_count hsc256, fromLE_toLE 8 h.iters hit256,
    fromLE_toLE 8 h.warmup hwu256, fromLEi32_roundtrip h.pin_cpu h4 h5,
    fromLE_toLE 4 h.tags.length htc256]
  rw [take_len_app (toLE 4 h.case_name.length) _ 4 (toLE_length _ _),
    drop_len_app (toLE 4 h.case_name.length) _ 4 (toLE_length _ _)]
  rw [if_neg (by simp [toLE_length] : ¬((toLE 4 h.case_name.length).length ≠ 4))]
  rw [fromLE_toLE 4 h.case_name.length hcl256]
  rw [take_len_app h.case_name _ h.case_name.length rfl,
    drop_len_app h.case_name _ h.case_name.length rfl]
  rw [if_neg (by omega : ¬(h.case_name.length ≠ h.case_name.length))]
  simp only [readStrs_spec "truncated tag length" "truncated tag" h.tags h9]
  rw [take_len_app (toLE 4 h.args.length) _ 4 (toLE_length _ _),
    drop_len_app (toLE 4 h.args.length) _ 4 (toLE_length _ _)]
  rw [if_neg (by simp [toLE_length] : ¬((toLE 4 h.args.length).length ≠ 4))]
  rw [fromLE_toLE 4 h.args.length hac256]
  simp only [readStrs_spec "truncated arg length" "truncated arg" h.args h10]
  rw [hname]

theorem scaleVal_one (v : Int) : scaleVal 1 v = v := by
  unfold scaleVal
  norm_num

theorem map_scaleVal_one (samples : List Int) : samples.map (scaleVal 1) = samples := by
  rw [List.map_congr_left (fun v _ => scaleVal_one v)]
  exact List.map_id' samples

theorem encode_ok (samples : List Int) (header : RawHeader) (unit : String)
    (hu : (UNIT_ENUM (resolveUnit samples unit)).isSome = true)
    (hok : headerOk { header with unit := resolveUnit samples unit, sample_count := samples.length })
    (hd : deltasOk (UNIT_SCALE_NS (resolveUnit samples unit)) samples) :
    encode_samples_to_llr samples header unit =
      .ok { header with unit := resolveUnit samples unit, sample_count := samples.length }
        (headerStream { header with unit := resolveUnit samples unit, sample_count := samples.length } ++
          payloadStream (UNIT_SCALE_NS (resolveUnit samples unit)) 0 samples) := by
  unfold encode_samples_to_llr
  rw [if_pos hu]
  simp only [_write_header_ok _ hok]
  unfold _encode_samples
  unfold deltasOk at hd
  simp only [_encode_samples_go_ok (UNIT_SCALE_NS (resolveUnit samples unit)) samples 0 [] [] hd]
  simp

theorem read_llr_ns_stream (h : RawHeader) (samples : List Int) (k : Nat)
    (hok : headerOk h) (hunit : h.unit = "ns") (hcount : h.sample_count = samples.length + k)
    (hd : ∀ d ∈ deltasFrom 0 samples, -(2 ^ 63) ≤ d ∧ d ≤ 2 ^ 63 - 1) :
    read_llr (headerStream h ++ payloadStream 1 0 samples) "ns" = .ok (h, samples) := by
  unfold read_llr
  simp only [_read_header_spec h hok (payloadStream 1 0 samples)]
  rw [if_pos (by rfl : (UNIT_ENUM "ns").isSome = true)]
  rw [hunit, hcount]
  rw [show UNIT_SCALE_NS "ns" = 1 from rfl]
  have hdec := decodeLoop_exact samples 0 [] k hd
  simp only [List.nil_append, List.length_nil] at hdec
  simp only [hdec]

/-- C1: encoding a non-empty int64 sample list with unit `ns` and decoding
with unit `ns` returns exactly the original samples, and a header equal
field-for-field to the input header with `unit = "ns"` and `sample_count`
the length of the list. -/
theorem roundtrip_ns (samples : List Int) (header : RawHeader)
    (_hne : samples ≠ [])
    (hd : ∀ d ∈ deltasFrom 0 samples, -(2 ^ 63) ≤ d ∧ d ≤ 2 ^ 63 - 1)
    (hn : samples.length < 2 ^ 64)
    (hf : headerFieldsOk header) :
    encode_samples_to_llr samples header "ns" =
      .ok { header with unit := "ns", sample_count := samples.length }
        (headerStream { header with unit := "ns", sample_count := samples.length } ++
          payloadStream 1 0 samples) ∧
    read_llr (headerStream { header with unit := "ns", sample_count := samples.length } ++
        payloadStream 1 0 samples) "ns" =
      .ok ({ header with unit := "ns", sample_count := samples.length }, samples) := by
  have hok : headerOk { header with unit := "ns", sample_count := samples.length } :=
    headerOk_of_fieldsOk header hf samples.length hn "ns" rfl
  constructor
  · have henc := encode_ok samples header "ns" (by rfl) hok
      (by unfold deltasOk
          rw [show UNIT_SCALE_NS (resolveUnit samples "ns") = 1 from rfl, map_scaleVal_one]
          exact hd)
    rw [show resolveUnit samples "ns" = "ns" from rfl] at henc
    rw [show UNIT_SCALE_NS "ns" = 1 from rfl] at henc
    exact henc
  · exact read_llr_ns_stream _ samples 0 hok rfl (by simp) hd

/-- C1 witness: the round trip at the concrete samples and header of the
repository test `test_llr_roundtrip_ns_exact`. -/
theorem roundtrip_ns_witness :
    encode_samples_to_llr [1, 2, 3, 1000, 1001]
        (RawHeader.mk [110, 111, 111, 112] [[113, 117, 105, 101, 116]]
          [[45, 45, 102, 108, 97, 103], [118, 97, 108, 117, 101]] 5 0 (-1) "ns" 0) "ns" =
      .ok { RawHeader.mk [110, 111, 111, 112] [[113, 117, 105, 101, 116]]
          [[45, 45, 102, 108, 97, 103], [118, 97, 108, 117, 101]] 5 0 (-1) "ns" 0 with
          unit := "ns", sample_count := (5 : Nat) }
        (headerStream { RawHeader.mk [110, 111, 111, 112] [[113, 117, 105, 101, 116]]
          [[45, 45, 102, 108, 97, 103], [118, 97, 108, 117, 101]] 5 0 (-1) "ns" 0 with
          unit := "ns", sample_count := (5 : Nat) } ++
          payloadStream 1 0 [1, 2, 3, 1000, 1001]) ∧
    read_llr (headerStream { RawHeader.mk [110, 111, 111, 112] [[113, 117, 105, 101, 116]]
          [[45, 45, 102, 108, 97, 103], [118, 97, 108, 117, 101]] 5 0 (-1) "ns" 0 with
          unit := "ns", sample_count := (5 : Nat) } ++
        payloadStream 1 0 [1, 2, 3, 1000, 1001]) "ns" =
      .ok ({ RawHeader.mk [110, 111, 111, 112] [[113, 117, 105, 101, 116]]
          [[45, 45, 102, 108, 97, 103], [118, 97, 108, 117, 101]] 5 0 (-1) "ns" 0 with
          unit := "ns", sample_count := (5 : Nat) }, [1, 2, 3, 1000, 1001]) :=
  roundtrip_ns [1, 2, 3, 1000, 1001] _ (by decide) (by decide) (by decide) (by decide)

/-- C6: encoding `[100000, 150000, 250000, 249999]` raw nanoseconds with
unit `auto` selects the unit `us`, and decoding the container back with
unit `ns` yields `[100000, 150000, 250000, 250000]`: the last sample
rounds up to 250000 through the encode-then-decode round-half-up chain. -/
theorem auto_unit_roundtrip (header : RawHeader) (hf : headerFieldsOk header) :
    resolveUnit [100000, 150000, 250000, 249999] "auto" = "us" ∧
    encode_samples_to_llr [100000, 150000, 250000, 249999] header "auto" =
      .ok { header with unit := "us", sample_count := 4 }
        (headerStream { header with unit := "us", sample_count := 4 } ++
          payloadStream 1000 0 [100000, 150000, 250000, 249999]) ∧
    read_llr (headerStream { header with unit := "us", sample_count := 4 } ++
        payloadStream 1000 0 [100000, 150000, 250000, 249999]) "ns" =
      .ok ({ header with unit := "us", sample_count := 4 }, [100000, 150000, 250000, 250000]) := by
  have hres : resolveUnit [100000, 150000, 250000, 249999] "auto" = "us" := by decide
  have hok : headerOk { header with unit := "us", sample_count := 4 } :=
    headerOk_of_fieldsOk header hf 4 (by norm_num) "us" rfl
  refine ⟨hres, ?_, ?_⟩
  · have henc := encode_ok [100000, 150000, 250000, 249999] header "auto"
      (by rw [hres]; rfl) (by rw [hres]; exact hok) (by rw [hres]; decide)
    rw [hres] at henc
    rw [show UNIT_SCALE_NS "us" = 1000 from rfl] at henc
    exact henc
  · unfold read_llr
    simp only [_read_header_spec _ hok (payloadStream 1000 0 [100000, 150000, 250000, 249999])]
    rw [if_pos (by rfl : (UNIT_ENUM "ns").isSome = true)]
    have hdec : decodeLoop (payloadStream 1000 0 [100000, 150000, 250000, 249999])
        (UNIT_SCALE_NS "us") (UNIT_SCALE_NS "ns") 4 0 0 =
        .ok [100000, 150000, 250000, 250000] := by rfl
    simp only [hdec]

/-- C6 witness: the auto-unit round trip at the concrete header of the
repository test `test_llr_roundtrip_auto_with_rounding`. -/
theorem auto_unit_roundtrip_witness :
    resolveUnit [100000, 150000, 250000, 249999] "auto" = "us" ∧
    encode_samples_to_llr [100000, 150000, 250000, 249999]
        (RawHeader.mk [110, 111, 111, 112] [] [] 4 0 (-1) "ns" 0) "auto" =
      .ok { RawHeader.mk [110, 111, 111, 112] [] [] 4 0 (-1) "ns" 0 with
          unit := "us", sample_count := 4 }
        (headerStream { RawHeader.mk [110, 111, 111, 112] [] [] 4 0 (-1) "ns" 0 with
          unit := "us", sample_count := 4 } ++
          payloadStream 1000 0 [100000, 150000, 250000, 249999]) ∧
    read_llr (headerStream { RawHeader.mk [110, 111, 111, 112] [] [] 4 0 (-1) "ns" 0 with
          unit := "us", sample_count := 4 } ++
        payloadStream 1000 0 [100000, 150000, 250000, 249999]) "ns" =
      .ok ({ RawHeader.mk [110, 111, 111, 112] [] [] 4 0 (-1) "ns" 0 with
          unit := "us", sample_count := 4 }, [100000, 150000, 250000, 250000]) :=
  auto_unit_roundtrip (RawHeader.mk [110, 111, 111, 112] [] [] 4 0 (-1) "ns" 0) (by decide)

/-- The header object as the caller observes it after
`encode_samples_to_llr` (`none` when the call failed before mutating it). -/
def encHeader : EncodeOutcome → Option RawHeader
  | .ok h _ => some h
  | .errAfterOpen _ h _ => some h
  | .errBeforeOpen _ => none

/-- C7 counterexample: encoding `[0, 2 ^ 63]` with unit `ns` hits the
zigzag range guard on the second delta and fails hard, but the container
file already holds the header bytes when the error is raised, against the
claim that the encode aborts before any bytes are written to the final
file. -/
theorem range_violation_cx :
    encode_samples_to_llr [0, 2 ^ 63] (RawHeader.mk [] [] [] 0 0 0 "ns" 0) "ns" =
      .errAfterOpen "delta out of int64 range"
        { RawHeader.mk [] [] [] 0 0 0 "ns" 0 with unit := "ns", sample_count := 2 }
        (headerStream { RawHeader.mk [] [] [] 0 0 0 "ns" 0 with unit := "ns", sample_count := 2 }) ∧
    headerStream { RawHeader.mk [] [] [] 0 0 0 "ns" 0 with unit := "ns", sample_count := 2 } ≠ [] := by
  constructor
  · rfl
  · decide

/-- C7 amended: whenever some delta of the unit-scaled sample sequence
falls outside the signed 64-bit range, the encode fails hard with the
range error and produces no complete container (no wraparound happens),
but the error is raised only after the output file has been opened and the
header bytes written to it, so the partial file does hold bytes. -/
theorem range_violation (samples : List Int) (header : RawHeader) (unit : String)
    (hu : (UNIT_ENUM (resolveUnit samples unit)).isSome = true)
    (hok : headerOk { header with unit := resolveUnit samples unit, sample_count := samples.length })
    (hbad : ∃ d ∈ deltasFrom 0 (samples.map (scaleVal (UNIT_SCALE_NS (resolveUnit samples unit)))),
      d < -(2 ^ 63) ∨ 2 ^ 63 - 1 < d) :
    ∃ tail, encode_samples_to_llr samples header unit =
      .errAfterOpen "delta out of int64 range"
        { header with unit := resolveUnit samples unit, sample_count := samples.length }
        (headerStream { header with unit := resolveUnit samples unit, sample_count := samples.length } ++ tail) := by
  unfold encode_samples_to_llr
  rw [if_pos hu]
  simp only [_write_header_ok _ hok]
  unfold _encode_samples
  obtain ⟨w, hw⟩ := _encode_samples_go_err (UNIT_SCALE_NS (resolveUnit samples unit)) samples 0 [] [] hbad
  simp only [hw]
  exact ⟨w, rfl⟩

/-- C7 witness: the amended statement at the concrete input of the
counterexample. -/
theorem range_violation_witness :
    ∃ tail, encode_samples_to_llr [0, 2 ^ 63] (RawHeader.mk [] [] [] 0 0 0 "ns" 0) "ns" =
      .errAfterOpen "delta out of int64 range"
        { RawHeader.mk [] [] [] 0 0 0 "ns" 0 with unit := "ns", sample_count := 2 }
        (headerStream { RawHeader.mk [] [] [] 0 0 0 "ns" 0 with unit := "ns", sample_count := 2 } ++ tail) :=
  range_violation [0, 2 ^ 63] (RawHeader.mk [] [] [] 0 0 0 "ns" 0) "ns" (by rfl) (by decide)
    ⟨2 ^ 63, by decide⟩

/-- C9 counterexample: `encode_samples_to_llr` mutates the caller header:
after encoding an empty sample list with unit `us`, the header object has
`unit = "us"` and `sample_count = 0` where the caller had set `unit = "ns"`
and `sample_count = 5`, so the header is not immutable across the encode
call. -/
theorem header_mutation_cx :
    encode_samples_to_llr [] (RawHeader.mk [] [] [] 0 0 0 "ns" 5) "us" =
      .ok (RawHeader.mk [] [] [] 0 0 0 "us" 0)
        (headerStream (RawHeader.mk [] [] [] 0 0 0 "us" 0)) ∧
    RawHeader.mk [] [] [] 0 0 0 "us" 0 ≠ RawHeader.mk [] [] [] 0 0 0 "ns" 5 := by
  constructor
  · rfl
  · decide

/-- C9 amended: the encode call mutates exactly the `unit` and
`sample_count` fields of the caller header, setting them to the resolved
unit and the sample count before the output file is opened; every other
field is left unchanged, and when the resolved unit is unknown the call
fails before touching the header. -/
theorem header_mutation (samples : List Int) (header : RawHeader) (unit : String) :
    ((UNIT_ENUM (resolveUnit samples unit)).isSome = true →
      encHeader (encode_samples_to_llr samples header unit) =
        some { header with unit := resolveUnit samples unit, sample_count := samples.length }) ∧
    ((UNIT_ENUM (resolveUnit samples unit)).isSome = false →
      encode_samples_to_llr samples header unit = .errBeforeOpen "unknown unit") := by
  constructor
  · intro hu
    unfold encode_samples_to_llr
    rw [if_pos hu]
    rcases hwh : (_write_header
        { header with unit := resolveUnit samples unit, sample_count := samples.length })
      with ⟨w, e?⟩
    rcases e? with _ | e
    · rcases hes : _encode_samples samples (resolveUnit samples unit) with ⟨body, b?⟩
      rcases b? with _ | eb
      · simp [encHeader, hwh, hes]
      · simp [encHeader, hwh, hes]
    · simp [encHeader, hwh]
  · intro hu
    unfold encode_samples_to_llr
    rw [if_neg (by simp [hu])]

/-- C9 witness: the amended statement at the concrete counterexample
input. -/
theorem header_mutation_witness :
    encHeader (encode_samples_to_llr [] (RawHeader.mk [] [] [] 0 0 0 "ns" 5) "us") =
      some { RawHeader.mk [] [] [] 0 0 0 "ns" 5 with
        unit := resolveUnit [] "us", sample_count := (0 : Nat) } :=
  (header_mutation [] (RawHeader.mk [] [] [] 0 0 0 "ns" 5) "us").1 (by rfl)

theorem read_llr_of_header_err (data : List Nat) (u : String) (e : String)
    (h : _read_header data = .error e) : read_llr data u = .error e := by
  unfold read_llr
  simp only [h]

theorem read_header_bad_magic (data : List Nat) (hmag : data.take 4 ≠ MAGIC) :
    _read_header data = .error "invalid raw file magic" := by
  simp only [_read_header]
  rw [if_pos hmag]

theorem read_header_bad_version (data : List Nat) (hmag : data.take 4 = MAGIC)
    (hb4 : ((data.drop 4).take 4).length = 4)
    (hver : ((data.drop 4).take 4).getD 0 0 ≠ VERSION) :
    _read_header data = .error "unsupported raw version" := by
  simp only [_read_header]
  rw [if_neg (by simp [hmag]), if_neg (by omega), if_pos hver]

theorem read_header_bad_unit (data : List Nat) (hmag : data.take 4 = MAGIC)
    (hb4 : ((data.drop 4).take 4).length = 4)
    (hver : ((data.drop 4).take 4).getD 0 0 = VERSION)
    (henum : ((data.drop 4).take 4).getD 1 0 ≥ UNIT_NAMES.length) :
    _read_header data = .error "invalid unit enum" := by
  simp only [_read_header]
  rw [if_neg (by simp [hmag]), if_neg (by omega), if_neg (by rw [hver]; simp), if_pos henum]

theorem readStrs_short (e1 e2 : String) (n : Nat) (data : List Nat) (hd : data.length < 4) :
    readStrs e1 e2 (n + 1) data = .error e1 := by
  simp only [readStrs]
  rw [if_pos (by simp [List.length_take]; omega)]

theorem read_header_short (data : List Nat) (hlen : data.length < 48) :
    ∃ e, _read_header data = .error e := by
  simp only [_read_header]
  by_cases hmag : data.take 4 ≠ MAGIC
  · rw [if_pos hmag]; exact ⟨_, rfl⟩
  rw [if_neg hmag]
  push_neg at hmag
  have hlen4 : 4 ≤ data.length := by
    have hml := congrArg List.length hmag
    simp only [List.length_take] at hml
    have : MAGIC.length = 4 := rfl
    omega
  by_cases hb4 : ((data.drop 4).take 4).length ≠ 4
  · rw [if_pos hb4]; exact ⟨_, rfl⟩
  rw [if_neg hb4]
  push_neg at hb4
  have hlen8 : 8 ≤ data.length := by
    simp only [List.length_take, List.length_drop] at hb4
    omega
  by_cases hver : ((data.drop 4).take 4).getD 0 0 ≠ VERSION
  · rw [if_pos hver]; exact ⟨_, rfl⟩
  rw [if_neg hver]
  by_cases henum : ((data.drop 4).take 4).getD 1 0 ≥ UNIT_NAMES.length
  · rw [if_pos henum]; exact ⟨_, rfl⟩
  rw [if_neg henum]
  by_cases hfx : (((data.drop 4).drop 4).take 32).length ≠ 32
  · rw [if_pos hfx]; exact ⟨_, rfl⟩
  rw [if_neg hfx]
  push_neg at hfx
  have hlen40 : 40 ≤ data.length := by
    simp only [List.length_take, List.length_drop] at hfx
    omega
  by_cases hcl4 : ((((data.drop 4).drop 4).drop 32).take 4).length ≠ 4
  · rw [if_pos hcl4]; exact ⟨_, rfl⟩
  rw [if_neg hcl4]
  push_neg at hcl4
  have hlen44 : 44 ≤ data.length := by
    simp only [List.length_take, List.length_drop] at hcl4
    omega
  by_cases hcb : (((((data.drop 4).drop 4).drop 32).drop 4).take
      (fromLE ((((data.drop 4).drop 4).drop 32).take 4))).length ≠
      fromLE ((((data.drop 4).drop 4).drop 32).take 4)
  · rw [if_pos hcb]; exact ⟨_, rfl⟩
  rw [if_neg hcb]
  push_neg at hcb
  have hd5 : (((((data.drop 4).drop 4).drop 32).drop 4).drop
      (fromLE ((((data.drop 4).drop 4).drop 32).take 4))).length < 4 := by
    simp only [List.length_take, List.length_drop] at hcb ⊢
    omega
  rcases htc : fromLE (((((data.drop 4).drop 4).take 32).drop 28).take 4) with _ | t
  · simp only [readStrs]
    rw [if_pos (show (((((((data.drop 4).drop 4).drop 32).drop 4).drop
        (fromLE ((((data.drop 4).drop 4).drop 32).take 4))).take 4).length ≠ 4) by
      simp only [List.length_take]
      omega)]
    exact ⟨_, rfl⟩
  · rw [readStrs_short _ _ t _ hd5]
    exact ⟨_, rfl⟩

theorem take_take_len {α : Type _} (l1 l2 : List α) (m k : Nat) (h : l1.length = k)
    (hk : k ≤ m) : ((l1 ++ l2).take m).take k = l1 := by
  rw [List.take_take, Nat.min_eq_left hk, List.take_left' h]

theorem take_drop_len {α : Type _} (l1 l2 : List α) (m k : Nat) (h : l1.length = k)
    (hk : k ≤ m) : ((l1 ++ l2).take m).drop k = l2.take (m - k) := by
  rw [List.take_append_eq_append_take, List.take_of_length_le (by omega), h]
  exact List.drop_left' h

theorem strsStream_length : ∀ ss : List (List Nat),
    (strsStream ss).length = ss.foldr (fun s acc => 4 + s.length + acc) 0 := by
  intro ss
  induction ss with
  | nil => rfl
  | cons s tail ih => simp [strsStream, ih, toLE_length]; omega

theorem headerStream_length (h : RawHeader) :
    (headerStream h).length = 48 + h.case_name.length + (strsStream h.tags).length +
      (strsStream h.args).length := by
  unfold headerStream
  simp [toLE_length, MAGIC]
  omega

theorem readStrs_take_err (e1 e2 : String) : ∀ ss : List (List Nat),
    (∀ s ∈ ss, s.length < 2 ^ 32) → ∀ (rest : List Nat) (m : Nat),
    m < (strsStream ss).length →
    ∃ e, readStrs e1 e2 ss.length ((strsStream ss ++ rest).take m) = .error e := by
  intro ss
  induction ss with
  | nil =>
    intro _ rest m hm
    simp [strsStream] at hm
  | cons s tail ih =>
    intro hs rest m hm
    have hslen : s.length < 2 ^ 32 := hs s (List.mem_cons_self s tail)
    have harr : strsStream (s :: tail) ++ rest =
        toLE 4 s.length ++ (s ++ (strsStream tail ++ rest)) := by
      simp [strsStream, List.append_assoc]
    have hlens : (strsStream (s :: tail)).length =
        4 + s.length + (strsStream tail).length := by
      simp [strsStream, toLE_length]
      omega
    rw [List.length_cons, harr]
    by_cases hm4 : m < 4
    · exact ⟨e1, readStrs_short e1 e2 tail.length _ (by simp [List.length_take]; omega)⟩
    · push_neg at hm4
      simp only [readStrs]
      rw [take_take_len _ _ m 4 (toLE_length 4 s.length) hm4]
      rw [take_drop_len _ _ m 4 (toLE_length 4 s.length) hm4]
      rw [toLE_length 4 s.length]
      rw [if_neg (by omega : ¬(4 ≠ 4))]
      rw [fromLE_toLE 4 s.length (by norm_num at hslen ⊢; omega)]
      by_cases hms : m - 4 < s.length
      · refine ⟨e2, ?_⟩
        rw [if_pos ?hlen]
        case hlen =>
          simp only [List.take_take, List.length_take, List.length_append]
          omega
      · push_neg at hms
        rw [take_take_len s _ (m - 4) s.length rfl hms]
        rw [if_neg (by omega : ¬(s.length ≠ s.length))]
        rw [take_drop_len s _ (m - 4) s.length rfl hms]
        obtain ⟨e, he⟩ := ih (fun t ht => hs t (List.mem_cons_of_mem s ht)) rest
          (m - 4 - s.length) (by omega)
        rw [he]
        exact ⟨e, rfl⟩

theorem readStrs_take_ok (e1 e2 : String) : ∀ ss : List (List Nat),
    (∀ s ∈ ss, s.length < 2 ^ 32) → ∀ (rest : List Nat) (m : Nat),
    (strsStream ss).length ≤ m →
    readStrs e1 e2 ss.length ((strsStream ss ++ rest).take m) =
      .ok (ss, rest.take (m - (strsStream ss).length)) := by
  intro ss
  induction ss with
  | nil =>
    intro _ rest m _
    simp [strsStream, readStrs]
  | cons s tail ih =>
    intro hs rest m hm
    have hslen : s.length < 2 ^ 32 := hs s (List.mem_cons_self s tail)
    have hlens : (strsStream (s :: tail)).length =
        4 + s.length + (strsStream tail).length := by
      simp [strsStream, toLE_length]
      omega
    have harr : strsStream (s :: tail) ++ rest =
        toLE 4 s.length ++ (s ++ (strsStream tail ++ rest)) := by
      simp [strsStream, List.append_assoc]
    rw [List.length_cons, harr]
    simp only [readStrs]
    rw [take_take_len _ _ m 4 (toLE_length 4 s.length) (by omega)]
    rw [take_drop_len _ _ m 4 (toLE_length 4 s.length) (by omega)]
    rw [toLE_length 4 s.length]
    rw [if_neg (by omega : ¬(4 ≠ 4))]
    rw [fromLE_toLE 4 s.length (by norm_num at hslen ⊢; omega)]
    rw [take_take_len s _ (m - 4) s.length rfl (by omega)]
    rw [if_neg (by omega : ¬(s.length ≠ s.length))]
    rw [take_drop_len s _ (m - 4) s.length rfl (by omega)]
    rw [ih (fun t ht => hs t (List.mem_cons_of_mem s ht)) rest (m - 4 - s.length) (by omega)]
    rw [show m - 4 - s.length - (strsStream tail).length =
      m - (strsStream (s :: tail)).length by omega]

theorem read_header_case_truncated (data : List Nat)
    (hmag : data.take 4 = MAGIC)
    (hb4 : ((data.drop 4).take 4).length = 4)
    (hver : ((data.drop 4).take 4).getD 0 0 = VERSION)
    (henum : ((data.drop 4).take 4).getD 1 0 < UNIT_NAMES.length)
    (hfx : (((data.drop 4).drop 4).take 32).length = 32)
    (hcl4 : ((((data.drop 4).drop 4).drop 32).take 4).length = 4)
    (hshort : data.length < 44 + fromLE ((((data.drop 4).drop 4).drop 32).take 4)) :
    _read_header data = .error "truncated case name" := by
  simp only [_read_header]
  rw [if_neg (by simp [hmag]), if_neg (by omega), if_neg (by rw [hver]; simp),
    if_neg (by omega), if_neg (by omega), if_neg (by omega)]
  rw [if_pos ?short]
  case short =>
    simp only [List.length_take, List.length_drop] at hcl4 ⊢
    omega

theorem read_header_truncated (h : RawHeader) (hok : headerOk h) (n : Nat)
    (hn : n < (headerStream h).length) :
    ∃ e, _read_header ((headerStream h).take n) = .error e := by
  by_cases h48 : n < 48
  · apply read_header_short
    simp only [List.length_take]
    omega
  push_neg at h48
  obtain ⟨h1, h2, h3, h4, h5, h6, h7, h8, h9, h10, h11⟩ := hok
  obtain ⟨henum, hname⟩ := unit_enum_cases h.unit h11
  have hcl256 : h.case_name.length < 256 ^ 4 := by norm_num; omega
  have htc256 : h.tags.length < 256 ^ 4 := by norm_num; omega
  have hac256 : h.args.length < 256 ^ 4 := by norm_num; omega
  have hL := headerStream_length h
  have hstream : headerStream h =
      MAGIC ++ ([VERSION, (UNIT_ENUM h.unit).getD 0, 0, 0] ++
        ((toLE 8 h.sample_count ++ (toLE 8 h.iters ++ (toLE 8 h.warmup ++
          (toLE 4 (h.pin_cpu.emod (2 ^ 32)).toNat ++ toLE 4 h.tags.length)))) ++
        (toLE 4 h.case_name.length ++ (h.case_name ++ (strsStream h.tags ++
          (toLE 4 h.args.length ++ strsStream h.args)))))) := by
    unfold headerStream
    simp [List.append_assoc]
  rw [hstream]
  simp only [_read_header]
  rw [take_take_len MAGIC _ n 4 rfl (by omega),
    take_drop_len MAGIC _ n 4 rfl (by omega)]
  rw [if_neg (by simp)]
  rw [take_take_len [VERSION, (UNIT_ENUM h.unit).getD 0, 0, 0] _ (n - 4) 4 rfl (by omega),
    take_drop_len [VERSION, (UNIT_ENUM h.unit).getD 0, 0, 0] _ (n - 4) 4 rfl (by omega)]
  rw [if_neg (by simp : ¬(([VERSION, (UNIT_ENUM h.unit).getD 0, 0, 0] : List Nat).length ≠ 4))]
  rw [if_neg (by simp [VERSION] :
    ¬(([VERSION, (UNIT_ENUM h.unit).getD 0, 0, 0] : List Nat).getD 0 0 ≠ VERSION))]
  rw [show ([VERSION, (UNIT_ENUM h.unit).getD 0, 0, 0] : List Nat).getD 1 0 =
    (UNIT_ENUM h.unit).getD 0 from rfl]
  rw [if_neg (by omega : ¬((UNIT_ENUM h.unit).getD 0 ≥ UNIT_NAMES.length))]
  have hfixlen : (toLE 8 h.sample_count ++ (toLE 8 h.iters ++ (toLE 8 h.warmup ++
      (toLE 4 (h.pin_cpu.emod (2 ^ 32)).toNat ++ toLE 4 h.tags.length)))).length = 32 := by
    simp [toLE_length]
  rw [take_take_len _ _ (n - 4 - 4) 32 hfixlen (by omega),
    take_drop_len _ _ (n - 4 - 4) 32 hfixlen (by omega)]
  rw [if_neg (by rw [hfixlen]; omega : ¬((toLE 8 h.sample_count ++ (toLE 8 h.iters ++
    (toLE 8 h.warmup ++ (toLE 4 (h.pin_cpu.emod (2 ^ 32)).toNat ++
      toLE 4 h.tags.length)))).length ≠ 32))]
  obtain ⟨f1, f2, f3, f4, f5⟩ := fixed_block_fields (toLE 8 h.sample_count) (toLE 8 h.iters)
    (toLE 8 h.warmup) (toLE 4 (h.pin_cpu.emod (2 ^ 32)).toNat) (toLE 4 h.tags.length)
    (toLE_length _ _) (toLE_length _ _) (toLE_length _ _) (toLE_length _ _) (toLE_length _ _)
  rw [f5, fromLE_toLE 4 h.tags.length htc256]
  rw [take_take_len (toLE 4 h.case_name.length) _ (n - 4 - 4 - 32) 4 (toLE_length _ _) (by omega),
    take_drop_len (toLE 4 h.case_name.length) _ (n - 4 - 4 - 32) 4 (toLE_length _ _) (by omega)]
  rw [if_neg (by simp [toLE_length] : ¬((toLE 4 h.case_name.length).length ≠ 4))]
  rw [fromLE_toLE 4 h.case_name.length hcl256]
  by_cases hc : n - 4 - 4 - 32 - 4 < h.case_name.length
  · refine ⟨"truncated case name", ?_⟩
    rw [if_pos ?short]
    case short =>
      simp only [List.length_take, List.length_append]
      omega
  · push_neg at hc
    rw [take_take_len h.case_name _ (n - 4 - 4 - 32 - 4) h.case_name.length rfl hc]
    rw [if_neg (by omega : ¬(h.case_name.length ≠ h.case_name.length))]
    rw [take_drop_len h.case_name _ (n - 4 - 4 - 32 - 4) h.case_name.length rfl hc]
    by_cases ht : (strsStream h.tags).length ≤ n - 4 - 4 - 32 - 4 - h.case_name.length
    · simp only [readStrs_take_ok "truncated tag length" "truncated tag" h.tags h9 _ _ ht]
      by_cases ha4 : n - 4 - 4 - 32 - 4 - h.case_name.length - (strsStream h.tags).length < 4
      · refine ⟨"truncated arg count", ?_⟩
        rw [if_pos ?short2]
        case short2 =>
          simp only [List.take_take, List.length_take, List.length_append, toLE_length]
          omega
      · push_neg at ha4
        rw [take_take_len (toLE 4 h.args.length) _
          (n - 4 - 4 - 32 - 4 - h.case_name.length - (strsStream h.tags).length) 4
          (toLE_length _ _) ha4]
        rw [if_neg (by simp [toLE_length] : ¬((toLE 4 h.args.length).length ≠ 4))]
        rw [take_drop_len (toLE 4 h.args.length) _
          (n - 4 - 4 - 32 - 4 - h.case_name.length - (strsStream h.tags).length) 4
          (toLE_length _ _) ha4]
        rw [fromLE_toLE 4 h.args.length hac256]
        have hm3 : n - 4 - 4 - 32 - 4 - h.case_name.length - (strsStream h.tags).length - 4 <
            (strsStream h.args).length := by omega
        obtain ⟨e, he⟩ := readStrs_take_err "truncated arg length" "truncated arg" h.args h10
          [] (n - 4 - 4 - 32 - 4 - h.case_name.length - (strsStream h.tags).length - 4) hm3
        simp only [List.append_nil] at he
        rw [he]
        exact ⟨e, rfl⟩
    · push_neg at ht
      obtain ⟨e, he⟩ := readStrs_take_err "truncated tag length" "truncated tag" h.tags h9
        _ (n - 4 - 4 - 32 - 4 - h.case_name.length) ht
      rw [he]
      exact ⟨e, rfl⟩

/-- C2 counterexample: a container whose header declares `sample_count = 2`
but whose payload holds a single complete varint decodes successfully to
the one-element list `[0]` instead of failing: `read_llr` silently
truncates when the payload runs out cleanly between varints, against the
claim that a payload shorter than `sample_count` requires must cause a
failure. -/
theorem decode_short_payload_cx :
    read_llr (headerStream (RawHeader.mk [] [] [] 0 0 0 "ns" 2) ++ [0]) "ns" =
      .ok (RawHeader.mk [] [] [] 0 0 0 "ns" 2, [0]) ∧
    (RawHeader.mk [] [] [] 0 0 0 "ns" 2).sample_count = 2 ∧
    ([0] : List Int).length = 1 :=
  ⟨by rfl, rfl, rfl⟩

/-- C2 amended: decoding fails with a decode error and no partial result
whenever the first 4 bytes differ from the magic constant, the version is
unsupported, the unit enum index is out of range, or a header field or
string or varint is truncated: any container shorter than the 48 bytes of
a minimal header fails, any strict truncation of a valid container header
stream fails (covering truncated fixed fields and truncated case, tag and
arg strings at every size), a declared case-name length exceeding the
available bytes fails, and a payload whose final varint is cut off fails;
however, a payload that ends cleanly at a varint boundary before
`sample_count` samples have been produced does not fail: the loop stops at
the end of the payload and the shorter sample list is returned silently. -/
theorem decode_failures :
    (∀ (data : List Nat) (u : String), data.take 4 ≠ MAGIC →
      read_llr data u = .error "invalid raw file magic") ∧
    (∀ (data : List Nat) (u : String), data.take 4 = MAGIC →
      ((data.drop 4).take 4).length = 4 → ((data.drop 4).take 4).getD 0 0 ≠ VERSION →
      read_llr data u = .error "unsupported raw version") ∧
    (∀ (data : List Nat) (u : String), data.take 4 = MAGIC →
      ((data.drop 4).take 4).length = 4 → ((data.drop 4).take 4).getD 0 0 = VERSION →
      ((data.drop 4).take 4).getD 1 0 ≥ UNIT_NAMES.length →
      read_llr data u = .error "invalid unit enum") ∧
    (∀ (data : List Nat) (u : String), data.length < 48 →
      ∃ e, read_llr data u = .error e) ∧
    (∀ (data : List Nat) (u : String), data.take 4 = MAGIC →
      ((data.drop 4).take 4).length = 4 → ((data.drop 4).take 4).getD 0 0 = VERSION →
      ((data.drop 4).take 4).getD 1 0 < UNIT_NAMES.length →
      (((data.drop 4).drop 4).take 32).length = 32 →
      ((((data.drop 4).drop 4).drop 32).take 4).length = 4 →
      data.length < 44 + fromLE ((((data.drop 4).drop 4).drop 32).take 4) →
      read_llr data u = .error "truncated case name") ∧
    (∀ (h : RawHeader) (n : Nat) (u : String), headerOk h → n < (headerStream h).length →
      ∃ e, read_llr ((headerStream h).take n) u = .error e) ∧
    (read_llr (headerStream (RawHeader.mk [] [] [] 0 0 0 "ns" 1) ++ [128]) "ns" =
      .error "truncated varint") ∧
    (∀ (h : RawHeader) (samples : List Int) (k : Nat), headerOk h → h.unit = "ns" →
      h.sample_count = samples.length + (k + 1) →
      (∀ d ∈ deltasFrom 0 samples, -(2 ^ 63) ≤ d ∧ d ≤ 2 ^ 63 - 1) →
      read_llr (headerStream h ++ payloadStream 1 0 samples) "ns" = .ok (h, samples)) := by
  refine ⟨?_, ?_, ?_, ?_, ?_, ?_, ?_, ?_⟩
  · intro data u hmag
    exact read_llr_of_header_err data u _ (read_header_bad_magic data hmag)
  · intro data u hmag hb4 hver
    exact read_llr_of_header_err data u _ (read_header_bad_version data hmag hb4 hver)
  · intro data u hmag hb4 hver henum
    exact read_llr_of_header_err data u _ (read_header_bad_unit data hmag hb4 hver henum)
  · intro data u hlen
    obtain ⟨e, he⟩ := read_header_short data hlen
    exact ⟨e, read_llr_of_header_err data u e he⟩
  · intro data u hmag hb4 hver henum hfx hcl4 hshort
    exact read_llr_of_header_err data u _
      (read_header_case_truncated data hmag hb4 hver henum hfx hcl4 hshort)
  · intro h n u hok hn
    obtain ⟨e, he⟩ := read_header_truncated h hok n hn
    exact ⟨e, read_llr_of_header_err _ u e he⟩
  · rfl
  · intro h samples k hok hunit hcount hd
    exact read_llr_ns_stream h samples (k + 1) hok hunit hcount hd

/-- C2 witness: the magic check of the amended statement at a concrete
four-byte container of zeros. -/
theorem decode_failures_witness :
    read_llr [0, 0, 0, 0] "ns" = .error "invalid raw file magic" :=
  decode_failures.1 [0, 0, 0, 0] "ns" (by decide)

/-- C4 witness: the schema migration statement at a concrete two-column
file with one stored row and an incoming row with a different identity
key. -/
theorem schema_migration_witness :
    _merge_index_fields ["lab", "min"] =
      ["lab", "min"] ++ INDEX_FIELDS.filter (fun f => !(f ∈ (["lab", "min"] : List String) : Bool)) ∧
    append_index_csv (some [["lab", "min"], ["X", "5"]]) [("lab", "Z"), ("min", "7")] =
      some ((["lab", "min"] ++
          INDEX_FIELDS.filter (fun f => !(f ∈ (["lab", "min"] : List String) : Bool))) ::
        ([["X", "5"]].map (fun r => r ++ List.replicate
            (INDEX_FIELDS.filter (fun f => !(f ∈ (["lab", "min"] : List String) : Bool))).length "") ++
          [projectRow (["lab", "min"] ++
            INDEX_FIELDS.filter (fun f => !(f ∈ (["lab", "min"] : List String) : Bool)))
            [("lab", "Z"), ("min", "7")]])) ∧
    update_index_csv (some [["lab", "min"], ["X", "5"]]) [("lab", "Z"), ("min", "7")] "replace" =
      some ((["lab", "min"] ++
          INDEX_FIELDS.filter (fun f => !(f ∈ (["lab", "min"] : List String) : Bool))) ::
        (([["X", "5"]].filter (fun r =>
            !(_index_key ((["lab", "min"] : List String).zip r) =
              _index_key [("lab", "Z"), ("min", "7")] : Bool))).map
            (fun r => r ++ List.replicate
              (INDEX_FIELDS.filter (fun f => !(f ∈ (["lab", "min"] : List String) : Bool))).length "") ++
          [projectRow (["lab", "min"] ++
            INDEX_FIELDS.filter (fun f => !(f ∈ (["lab", "min"] : List String) : Bool)))
            [("lab", "Z"), ("min", "7")]])) :=
  schema_migration ["lab", "min"] [["X", "5"]] [("lab", "Z"), ("min", "7")]
    (by decide) (by decide) (by decide) (by decide)
